import Mathlib

/-!
Verification of the SQLite-backed node store (`sqlite_store.py`).

The development shallowly embeds the module: JSON-compatible payload values
are the inductive `PG.JValue`; the external `json` codec is modelled by an
executable injective text encoding with a real parser (`PG.dumps` / `PG.loads`,
satisfying the codec contract of spec section 4.2: decode after encode is the
identity and malformed text is rejected with an error); the SQLite engine is
modelled by database files holding optional tables of key/payload rows, with
create-if-not-exists, delete-all and insert-or-replace operations, and a
filesystem mapping (directory, filename) paths to committed files.
-/

namespace PG

/-- JSON-compatible nested values: mappings with string keys (in insertion
order, as Python dicts), sequences, strings, integers, booleans and null. -/
inductive JValue where
  | null : JValue
  | bool : Bool → JValue
  | num : Int → JValue
  | str : String → JValue
  | arr : List JValue → JValue
  | obj : List (String × JValue) → JValue

mutual

/-- Node count of a value, used as parser fuel bound. -/
def jsize : JValue → Nat
  | .null => 1
  | .bool _ => 1
  | .num _ => 1
  | .str _ => 1
  | .arr xs => jsizeItems xs + 1
  | .obj ps => jsizePairs ps + 1

def jsizeItems : List JValue → Nat
  | [] => 0
  | v :: vs => jsize v + jsizeItems vs

def jsizePairs : List (String × JValue) → Nat
  | [] => 0
  | (_, v) :: ps => jsize v + jsizePairs ps

end

/-- Character for a decimal digit. -/
def digitChar : Nat → Char
  | 0 => '0'
  | 1 => '1'
  | 2 => '2'
  | 3 => '3'
  | 4 => '4'
  | 5 => '5'
  | 6 => '6'
  | 7 => '7'
  | 8 => '8'
  | _ => '9'

/-- Value of a decimal digit character (0 for non-digits). -/
def digitVal : Char → Nat
  | '0' => 0
  | '1' => 1
  | '2' => 2
  | '3' => 3
  | '4' => 4
  | '5' => 5
  | '6' => 6
  | '7' => 7
  | '8' => 8
  | _ => 9

/-- Whether a character is a decimal digit of the encoding. -/
def isDig (c : Char) : Bool :=
  c = '0' || c = '1' || c = '2' || c = '3' || c = '4' ||
  c = '5' || c = '6' || c = '7' || c = '8' || c = '9'

/-- Decimal text of a natural number (most significant digit first). -/
def encodeNat (n : Nat) : List Char :=
  if n = 0 then ['0'] else (Nat.digits 10 n).reverse.map digitChar

/-- Natural number denoted by a list of digit characters. -/
def charsToNat (ds : List Char) : Nat :=
  Nat.ofDigits 10 ((ds.map digitVal).reverse)

/-- Decimal digits terminated by a semicolon, then the rest. -/
def readNat (cs : List Char) : Except String (Nat × List Char) :=
  let ds := cs.takeWhile isDig
  let rest := cs.dropWhile isDig
  if ds.isEmpty then .error "expected digits"
  else
    match rest with
    | ';' :: r => .ok (charsToNat ds, r)
    | _ => .error "expected terminator"

/-- Signed integer: sign marker, digits, semicolon. -/
def encodeInt (n : Int) : List Char :=
  if 0 ≤ n then 'p' :: (encodeNat n.toNat ++ [';'])
  else 'm' :: (encodeNat (-n).toNat ++ [';'])

/-- Parse a signed integer. -/
def readInt (cs : List Char) : Except String (Int × List Char) :=
  match cs with
  | 'p' :: r => do
      let (n, r') ← readNat r
      .ok ((n : Int), r')
  | 'm' :: r => do
      let (n, r') ← readNat r
      .ok (-(n : Int), r')
  | _ => .error "expected sign"

/-- Length-prefixed chunk of raw characters. -/
def encodeChunk (l : List Char) : List Char :=
  encodeNat l.length ++ [';'] ++ l

/-- Parse a length-prefixed chunk. -/
def readChunk (cs : List Char) : Except String (List Char × List Char) := do
  let (len, r) ← readNat cs
  if len ≤ r.length then .ok (r.take len, r.drop len)
  else .error "truncated chunk"

mutual

/-- Model of the external json encoder: an injective, parseable text form of a
JSON-compatible value. The concrete character format is immaterial to this
layer (spec section 4.2); only the codec contract matters. -/
def encodeV : JValue → List Char
  | .null => ['n']
  | .bool true => ['t']
  | .bool false => ['f']
  | .num n => 'i' :: encodeInt n
  | .str s => 's' :: encodeChunk s.data
  | .arr xs => 'a' :: (encodeNat xs.length ++ [';'] ++ encodeItems xs)
  | .obj ps => 'o' :: (encodeNat ps.length ++ [';'] ++ encodePairs ps)

def encodeItems : List JValue → List Char
  | [] => []
  | v :: vs => encodeV v ++ encodeItems vs

def encodePairs : List (String × JValue) → List Char
  | [] => []
  | (k, v) :: ps => encodeChunk k.data ++ encodeV v ++ encodePairs ps

end

mutual

/-- Model of the external json decoder: a fuel-indexed recursive-descent
parser that inverts `encodeV` and rejects malformed text. -/
def decodeV : Nat → List Char → Except String (JValue × List Char)
  | 0, _ => .error "out of fuel"
  | _ + 1, [] => .error "unexpected end"
  | fuel + 1, c :: cs =>
    if c = 'n' then .ok (.null, cs)
    else if c = 't' then .ok (.bool true, cs)
    else if c = 'f' then .ok (.bool false, cs)
    else if c = 'i' then do
      let (n, r) ← readInt cs
      .ok (.num n, r)
    else if c = 's' then do
      let (chunk, r) ← readChunk cs
      .ok (.str (String.mk chunk), r)
    else if c = 'a' then do
      let (cnt, r) ← readNat cs
      let (vs, r') ← decodeItems fuel cnt r
      .ok (.arr vs, r')
    else if c = 'o' then do
      let (cnt, r) ← readNat cs
      let (ps, r') ← decodePairs fuel cnt r
      .ok (.obj ps, r')
    else .error "bad tag"
termination_by fuel cs => (fuel, 0)

/-- Parse a counted sequence of values. -/
def decodeItems : Nat → Nat → List Char → Except String (List JValue × List Char)
  | _, 0, cs => .ok ([], cs)
  | fuel, n + 1, cs => do
      let (v, r) ← decodeV fuel cs
      let (vs, r') ← decodeItems fuel n r
      .ok (v :: vs, r')
termination_by fuel n cs => (fuel, n + 1)

/-- Parse a counted sequence of key/value pairs. -/
def decodePairs : Nat → Nat → List Char → Except String (List (String × JValue) × List Char)
  | _, 0, cs => .ok ([], cs)
  | fuel, n + 1, cs => do
      let (k, r) ← readChunk cs
      let (v, r') ← decodeV fuel r
      let (ps, r'') ← decodePairs fuel n r'
      .ok ((String.mk k, v) :: ps, r'')
termination_by fuel n cs => (fuel, n + 1)

end

/-- Model of Python `json.dumps` at the codec contract level. -/
def dumps (v : JValue) : String := String.mk (encodeV v)

/-- Model of Python `json.loads` at the codec contract level: decodes the
whole text or fails with a decode error. -/
def loads (s : String) : Except String JValue :=
  match decodeV (s.data.length + 1) s.data with
  | .ok (v, []) => .ok v
  | .ok (_, _ :: _) => .error "trailing data"
  | .error e => .error e

@[simp] theorem bind_ok_eq {α β γ : Type} (a : α) (f : α → Except γ β) :
    (Except.ok a : Except γ α) >>= f = f a := rfl

@[simp] theorem bind_error_eq {α β γ : Type} (e : γ) (f : α → Except γ β) :
    (Except.error e : Except γ α) >>= f = Except.error e := rfl

theorem digitVal_digitChar (d : Nat) (h : d < 10) : digitVal (digitChar d) = d := by
  interval_cases d <;> rfl

theorem isDig_digitChar (d : Nat) (h : d < 10) : isDig (digitChar d) = true := by
  interval_cases d <;> rfl

theorem takeWhile_all_append (p : Char → Bool) (l l' : List Char)
    (h : ∀ c ∈ l, p c = true) : (l ++ l').takeWhile p = l ++ l'.takeWhile p := by
  induction l with
  | nil => simp
  | cons a t ih =>
      have ha : p a = true := h a (by simp)
      simp [List.takeWhile_cons, ha]
      exact ih (fun c hc => h c (by simp [hc]))

theorem dropWhile_all_append (p : Char → Bool) (l l' : List Char)
    (h : ∀ c ∈ l, p c = true) : (l ++ l').dropWhile p = l'.dropWhile p := by
  induction l with
  | nil => simp
  | cons a t ih =>
      have ha : p a = true := h a (by simp)
      simp [List.dropWhile_cons, ha]
      exact ih (fun c hc => h c (by simp [hc]))

theorem encodeNat_all_dig (n : Nat) : ∀ c ∈ encodeNat n, isDig c = true := by
  intro c hc
  unfold encodeNat at hc
  by_cases h0 : n = 0
  · simp [h0] at hc
    subst hc; rfl
  · simp [h0] at hc
    obtain ⟨d, hd, rfl⟩ := hc
    exact isDig_digitChar d (Nat.digits_lt_base (by norm_num) hd)

theorem encodeNat_ne_nil (n : Nat) : encodeNat n ≠ [] := by
  unfold encodeNat
  by_cases h0 : n = 0
  · simp [h0]
  · simp [h0, List.map_eq_nil_iff, List.reverse_eq_nil_iff, Nat.digits_eq_nil_iff_eq_zero]

theorem charsToNat_encodeNat (n : Nat) : charsToNat (encodeNat n) = n := by
  unfold encodeNat charsToNat
  by_cases h0 : n = 0
  · subst h0; rfl
  · simp [h0, List.map_reverse, List.map_map]
    have hmap : (Nat.digits 10 n).map (digitVal ∘ digitChar) = Nat.digits 10 n := by
      have : (Nat.digits 10 n).map (digitVal ∘ digitChar) = (Nat.digits 10 n).map id := by
        apply List.map_congr_left
        intro d hd
        exact digitVal_digitChar d (Nat.digits_lt_base (by norm_num) hd)
      simpa using this
    rw [hmap, Nat.ofDigits_digits]

theorem readNat_encodeNat (n : Nat) (rest : List Char) :
    readNat (encodeNat n ++ ';' :: rest) = .ok (n, rest) := by
  unfold readNat
  rw [takeWhile_all_append isDig _ _ (encodeNat_all_dig n),
      dropWhile_all_append isDig _ _ (encodeNat_all_dig n)]
  simp [List.takeWhile_cons, List.dropWhile_cons, isDig, encodeNat_ne_nil n,
    charsToNat_encodeNat n, List.isEmpty_iff]

theorem readInt_encodeInt (n : Int) (rest : List Char) :
    readInt (encodeInt n ++ rest) = .ok (n, rest) := by
  unfold encodeInt
  by_cases h : 0 ≤ n
  · simp only [h, if_true, List.cons_append, List.append_assoc, List.singleton_append]
    rw [readInt, readNat_encodeNat, bind_ok_eq]
    simp [Int.toNat_of_nonneg h]
  · simp only [h, if_false, List.cons_append, List.append_assoc, List.singleton_append]
    rw [readInt, readNat_encodeNat, bind_ok_eq]
    simp only [Except.ok.injEq, Prod.mk.injEq]
    constructor
    · omega
    · rfl

theorem readChunk_encodeChunk (l rest : List Char) :
    readChunk (encodeChunk l ++ rest) = .ok (l, rest) := by
  unfold encodeChunk readChunk
  simp only [List.append_assoc, List.singleton_append, List.cons_append]
  rw [readNat_encodeNat, bind_ok_eq]
  have hle : l.length ≤ (l ++ rest).length := by simp
  simp [hle, List.take_left, List.drop_left]

@[simp] theorem mk_data_eq (s : String) : String.mk s.data = s := rfl

theorem jsize_pos (v : JValue) : 1 ≤ jsize v := by
  cases v <;> simp [jsize]

theorem jsize_le_jsizeItems (xs : List JValue) (v : JValue) (hv : v ∈ xs) :
    jsize v ≤ jsizeItems xs := by
  induction xs with
  | nil => cases hv
  | cons a t ih =>
      rcases List.mem_cons.mp hv with h | h
      · subst h; simp [jsizeItems]
      · have := ih h
        simp [jsizeItems]
        omega

theorem jsize_le_jsizePairs (ps : List (String × JValue)) (k : String) (v : JValue)
    (hv : (k, v) ∈ ps) : jsize v ≤ jsizePairs ps := by
  induction ps with
  | nil => cases hv
  | cons a t ih =>
      obtain ⟨k', v'⟩ := a
      rcases List.mem_cons.mp hv with h | h
      · rw [Prod.mk.injEq] at h
        rw [h.2] at *
        simp [jsizePairs]
      · have := ih h
        simp [jsizePairs]
        omega

mutual

/-- The decoder inverts the encoder on any value, given enough fuel. -/
theorem decodeV_encodeV : ∀ (v : JValue) (fuel : Nat) (rest : List Char),
    jsize v ≤ fuel → decodeV fuel (encodeV v ++ rest) = .ok (v, rest)
  | v, 0, _, h => absurd h (by have := jsize_pos v; omega)
  | .null, f + 1, rest, _ => by simp [encodeV, decodeV]
  | .bool true, f + 1, rest, _ => by simp [encodeV, decodeV]
  | .bool false, f + 1, rest, _ => by simp [encodeV, decodeV]
  | .num n, f + 1, rest, _ => by
      simp [encodeV, decodeV, readInt_encodeInt]
  | .str s, f + 1, rest, _ => by
      simp [encodeV, decodeV, readChunk_encodeChunk]
  | .arr xs, f + 1, rest, h => by
      have hf : ∀ w ∈ xs, jsize w ≤ f := by
        intro w hw
        have h1 := jsize_le_jsizeItems xs w hw
        simp [jsize] at h
        omega
      have ih := decodeItems_encodeItems xs f rest hf
      simp [encodeV, decodeV, List.append_assoc, List.singleton_append,
        List.cons_append, List.nil_append, readNat_encodeNat, ih]
  | .obj ps, f + 1, rest, h => by
      have hf : ∀ p ∈ ps, jsize p.2 ≤ f := by
        intro p hp
        obtain ⟨k, w⟩ := p
        show jsize w ≤ f
        have h1 := jsize_le_jsizePairs ps k w hp
        simp [jsize] at h
        omega
      have ih := decodePairs_encodePairs ps f rest hf
      simp [encodeV, decodeV, List.append_assoc, List.singleton_append,
        List.cons_append, List.nil_append, readNat_encodeNat, ih]
termination_by v => sizeOf v

/-- The item parser inverts the item encoder. -/
theorem decodeItems_encodeItems : ∀ (xs : List JValue) (fuel : Nat) (rest : List Char),
    (∀ w ∈ xs, jsize w ≤ fuel) →
    decodeItems fuel xs.length (encodeItems xs ++ rest) = .ok (xs, rest)
  | [], fuel, rest, _ => by simp [encodeItems, decodeItems]
  | v :: vs, fuel, rest, h => by
      have hv := decodeV_encodeV v fuel (encodeItems vs ++ rest) (h v (by simp))
      have ih := decodeItems_encodeItems vs fuel rest (fun w hw => h w (by simp [hw]))
      simp [encodeItems, decodeItems, List.append_assoc, hv, ih]
termination_by xs => sizeOf xs

/-- The pair parser inverts the pair encoder. -/
theorem decodePairs_encodePairs : ∀ (ps : List (String × JValue)) (fuel : Nat)
    (rest : List Char), (∀ p ∈ ps, jsize p.2 ≤ fuel) →
    decodePairs fuel ps.length (encodePairs ps ++ rest) = .ok (ps, rest)
  | [], fuel, rest, _ => by simp [encodePairs, decodePairs]
  | (k, v) :: ps', fuel, rest, h => by
      have hv := decodeV_encodeV v fuel (encodePairs ps' ++ rest) (h (k, v) (by simp))
      have ih := decodePairs_encodePairs ps' fuel rest (fun w hw => h w (by simp [hw]))
      simp [encodePairs, decodePairs, List.append_assoc, readChunk_encodeChunk, hv, ih]
termination_by ps => sizeOf ps

end

mutual

/-- Each node of a value contributes at least one character to its encoding. -/
theorem jsize_le_encodeV (v : JValue) : jsize v ≤ (encodeV v).length := by
  cases v with
  | null => simp [jsize, encodeV]
  | bool b => cases b <;> simp [jsize, encodeV]
  | num n => simp [jsize, encodeV]
  | str s => simp [jsize, encodeV]
  | arr xs =>
      have := jsizeItems_le_encodeItems xs
      simp [jsize, encodeV, List.length_append]
      omega
  | obj ps =>
      have := jsizePairs_le_encodePairs ps
      simp [jsize, encodeV, List.length_append]
      omega
termination_by sizeOf v

/-- Item-list version of `jsize_le_encodeV`. -/
theorem jsizeItems_le_encodeItems (xs : List JValue) :
    jsizeItems xs ≤ (encodeItems xs).length := by
  cases xs with
  | nil => simp [jsizeItems, encodeItems]
  | cons v vs =>
      have h1 := jsize_le_encodeV v
      have h2 := jsizeItems_le_encodeItems vs
      simp [jsizeItems, encodeItems, List.length_append]
      omega
termination_by sizeOf xs

/-- Pair-list version of `jsize_le_encodeV`. -/
theorem jsizePairs_le_encodePairs (ps : List (String × JValue)) :
    jsizePairs ps ≤ (encodePairs ps).length := by
  cases ps with
  | nil => simp [jsizePairs, encodePairs]
  | cons p ps' =>
      obtain ⟨k, v⟩ := p
      have h1 := jsize_le_encodeV v
      have h2 := jsizePairs_le_encodePairs ps'
      simp [jsizePairs, encodePairs, List.length_append]
      omega
termination_by sizeOf ps

end

/-- Codec contract (spec section 4.2): decoding an encoded value restores it. -/
theorem loads_dumps (v : JValue) : loads (dumps v) = .ok v := by
  unfold loads dumps
  have hd : (String.mk (encodeV v)).data = encodeV v := rfl
  rw [hd]
  have h1 : decodeV ((encodeV v).length + 1) (encodeV v ++ []) = .ok (v, []) :=
    decodeV_encodeV v _ [] (by have := jsize_le_encodeV v; omega)
  rw [List.append_nil] at h1
  rw [h1]

/-- The encoding is injective, so structural equality of values is decidable
by comparing encodings. -/
theorem encodeV_injective (a b : JValue) (h : encodeV a = encodeV b) : a = b := by
  have ha := decodeV_encodeV a (jsize a + jsize b) [] (by omega)
  have hb := decodeV_encodeV b (jsize a + jsize b) [] (by omega)
  rw [List.append_nil] at ha hb
  rw [h, hb] at ha
  simp at ha
  exact ha.symm

instance instDecEqJValue : DecidableEq JValue := fun a b =>
  decidable_of_iff (encodeV a = encodeV b) ⟨encodeV_injective a b, fun h => by rw [h]⟩

/-! ## Key/value mappings

Python dicts and SQL tables with a string primary key are both modelled as
association lists in insertion order. -/

/-- A Python dict with string keys, as an association list in insertion
order (Python dicts cannot hold duplicate keys; theorems carry a
no-duplicate hypothesis where it matters). -/
abbrev PyDict (β : Type) := List (String × β)

/-- The keys of a dict, in order. -/
def keysOf {β : Type} (d : PyDict β) : List String := d.map Prod.fst

/-- Python `d.get(k)` / `d[k]`: the value at a key, if present. -/
def dictGet {β : Type} : PyDict β → String → Option β
  | [], _ => none
  | (k', v) :: rest, k => if k' = k then some v else dictGet rest k

/-- Python `d[k] = v`, and also SQL INSERT OR REPLACE of one row: replace in
place if the key exists, else append. -/
def dictUpsert {β : Type} : PyDict β → String → β → PyDict β
  | [], k, v => [(k, v)]
  | (k', v') :: rest, k, v =>
    if k' = k then (k, v) :: rest else (k', v') :: dictUpsert rest k v

/-- A sequence of upserts, in order. -/
def dictInsertAll {β : Type} (d : PyDict β) (rows : PyDict β) : PyDict β :=
  rows.foldl (fun acc r => dictUpsert acc r.1 r.2) d

/-! ## SQLite engine model

A database file holds up to four tables (the three docstore tables and the
indexstore table), each an association list from key to encoded payload in
row order. `none` means the table does not exist, distinct from an existing
empty table, so that create-if-not-exists semantics is observable. -/

/-- A table: rows of (key, encoded payload), in insertion order, with the
key as declared primary key. -/
abbrev Table := List (String × String)

/-- Names of the tables used by the two stores. -/
inductive TableName where
  | documents
  | ref_doc_info
  | metadata
  | index_metadata
deriving DecidableEq

/-- A database file: each table is either absent or present with rows. -/
structure DBFile where
  documents : Option Table
  ref_doc_info : Option Table
  metadata : Option Table
  index_metadata : Option Table
deriving DecidableEq

/-- A freshly created database file has no tables. -/
def DBFile.empty : DBFile := ⟨none, none, none, none⟩

/-- Read a table of a file. -/
def DBFile.get (f : DBFile) : TableName → Option Table
  | .documents => f.documents
  | .ref_doc_info => f.ref_doc_info
  | .metadata => f.metadata
  | .index_metadata => f.index_metadata

/-- Replace a table of a file. -/
def DBFile.set (f : DBFile) : TableName → Table → DBFile
  | .documents, t => ⟨some t, f.ref_doc_info, f.metadata, f.index_metadata⟩
  | .ref_doc_info, t => ⟨f.documents, some t, f.metadata, f.index_metadata⟩
  | .metadata, t => ⟨f.documents, f.ref_doc_info, some t, f.index_metadata⟩
  | .index_metadata, t => ⟨f.documents, f.ref_doc_info, f.metadata, some t⟩

/-- Errors surfaced by the store layer. -/
inductive StoreError where
  | notFound
  | serialization (msg : String)
  | tableExists (t : TableName)
  | noSuchTable (t : TableName)
  | typeErr (key : String)
deriving DecidableEq

/-- SQL statements issued by the module, at the granularity it uses them:
CREATE TABLE [IF NOT EXISTS], DELETE FROM, and executemany of
INSERT OR REPLACE. -/
inductive DBOp where
  | create (t : TableName) (ifNotExists : Bool)
  | clear (t : TableName)
  | upsertRows (t : TableName) (rows : Table)

/-- executemany of INSERT OR REPLACE over a row sequence, in order. -/
def Table.upsertAll (tbl : Table) (rows : Table) : Table :=
  dictInsertAll tbl rows

/-- Effect of one SQL statement on a database file. -/
def applyOp (f : DBFile) : DBOp → Except StoreError DBFile
  | .create t ifne =>
    match f.get t with
    | some _ => if ifne then .ok f else .error (.tableExists t)
    | none => .ok (f.set t [])
  | .clear t =>
    match f.get t with
    | some _ => .ok (f.set t [])
    | none => .error (.noSuchTable t)
  | .upsertRows t rows =>
    match f.get t with
    | some tbl => .ok (f.set t (tbl.upsertAll rows))
    | none => .error (.noSuchTable t)

/-- Effect of a statement sequence, stopping at the first failure. -/
def applyOps : DBFile → List DBOp → Except StoreError DBFile
  | f, [] => .ok f
  | f, op :: ops => do
      let f' ← applyOp f op
      applyOps f' ops

/-- The filesystem: a set of existing directories and a mapping from
(directory, file name) paths to committed database files. -/
structure FS where
  dirs : List String
  files : List ((String × String) × DBFile)
deriving DecidableEq

/-- Look up a file by path. -/
def findFile : List ((String × String) × DBFile) → String × String → Option DBFile
  | [], _ => none
  | (p, f) :: rest, q => if p = q then some f else findFile rest q

/-- Store a file at a path, replacing any previous file there. -/
def setFile : List ((String × String) × DBFile) → String × String → DBFile →
    List ((String × String) × DBFile)
  | [], q, f => [(q, f)]
  | (p, g) :: rest, q, f =>
    if p = q then (q, f) :: rest else (p, g) :: setFile rest q f

/-- Model of `Path.mkdir(parents=True, exist_ok=True)` on the parent. -/
def FS.mkdirParents (fs : FS) (d : String) : FS :=
  if d ∈ fs.dirs then fs else ⟨d :: fs.dirs, fs.files⟩

/-- Model of `sqlite3.connect`: the working copy of the file starts from the
last committed content, or empty for a fresh path. -/
def FS.connectFile (fs : FS) (p : String × String) : DBFile :=
  (findFile fs.files p).getD DBFile.empty

/-- Model of `connection.commit()` right before close: the working copy
becomes the committed content at the path. -/
def FS.commitFile (fs : FS) (p : String × String) (f : DBFile) : FS :=
  ⟨fs.dirs, setFile fs.files p f⟩

/-! ## The store module (`sqlite_store.py`) -/

/-- The row sequence fed to executemany:
`((key, json.dumps(value)) for key, value in d.items())`. -/
def encodeDictRows (d : PyDict JValue) : Table :=
  d.map (fun kv => (kv.1, dumps kv.2))

/-- `data.get(key, ...).items()`: the entries of the nested mapping at `key`,
empty if the key is absent; a non-mapping value is a type error (Python would
raise an AttributeError when iterating items). -/
def getItems (data : PyDict JValue) (k : String) : Except StoreError (PyDict JValue) :=
  match dictGet data k with
  | none => .ok []
  | some (.obj fields) => .ok fields
  | some _ => .error (.typeErr k)

/-- The remaining top-level entries:
`(k, v) for k, v in data.items() if k not in ("documents", "ref_doc_info")`. -/
def extraOf (data : PyDict JValue) : PyDict JValue :=
  data.filter (fun kv => decide (kv.1 ≠ "documents" ∧ kv.1 ≠ "ref_doc_info"))

/-- The three CREATE TABLE IF NOT EXISTS statements of
`_ensure_docstore_schema`. -/
def docSchemaOps : List DBOp :=
  [.create .documents true, .create .ref_doc_info true, .create .metadata true]

/-- `_ensure_docstore_schema(connection)`. -/
def ensure_docstore_schema (f : DBFile) : Except StoreError DBFile :=
  applyOps f docSchemaOps

/-- The statement sequence `_write_docstore` issues after extracting the
documents, ref-doc and extra entries (each executemany is skipped when its
dict is empty, mirroring the `if docs:` truthiness checks). -/
def docstoreOps (docs refs extra : PyDict JValue) : List DBOp :=
  docSchemaOps ++
  [.clear .documents] ++
  (if docs.isEmpty then [] else [.upsertRows .documents (encodeDictRows docs)]) ++
  [.clear .ref_doc_info] ++
  (if refs.isEmpty then [] else [.upsertRows .ref_doc_info (encodeDictRows refs)]) ++
  [.clear .metadata] ++
  (if extra.isEmpty then [] else [.upsertRows .metadata (encodeDictRows extra)])

/-- `_write_docstore(db_path, data)`: make the parent directory, connect
(creating the file if absent), ensure schema, replace the three tables from
the snapshot, commit, close. On an error the uncommitted work is rolled
back; the committed filesystem outcome of a failed call is modelled
separately by `write_docstore_aborted`. -/
def write_docstore (fs : FS) (dir name : String) (data : PyDict JValue) :
    Except StoreError FS := do
  let fs1 := fs.mkdirParents dir
  let f := fs1.connectFile (dir, name)
  let docs ← getItems data "documents"
  let refs ← getItems data "ref_doc_info"
  let f' ← applyOps f (docstoreOps docs refs (extraOf data))
  pure (fs1.commitFile (dir, name) f')

/-- The docstore tables in creation order. -/
def docTables : List TableName := [.documents, .ref_doc_info, .metadata]

/-- Create each listed table if absent (the committed effect of the DDL
statements, which SQLite autocommits since no transaction is open yet). -/
def createTables : DBFile → List TableName → DBFile
  | f, [] => f
  | f, t :: ts =>
    createTables (match f.get t with | some _ => f | none => f.set t []) ts

/-- Committed filesystem state after `_write_docstore` fails partway and the
connection is closed without commit: the file exists (connect created it if
absent), the first `j` DDL statements are committed, and every uncommitted
data-changing statement is rolled back. -/
def write_docstore_aborted (fs : FS) (dir name : String) (j : Nat) : FS :=
  let fs1 := fs.mkdirParents dir
  let f := fs1.connectFile (dir, name)
  fs1.commitFile (dir, name) (createTables f (docTables.take j))

/-- Decode every row of a table in order, as the row loops of the readers
do; the first undecodable payload aborts the read with that error. -/
def decodeRows : Table → Except StoreError (PyDict JValue)
  | [] => .ok []
  | (k, p) :: rest =>
    match loads p with
    | .error e => .error (.serialization e)
    | .ok v => do
        let tail ← decodeRows rest
        pure ((k, v) :: tail)

/-- `_read_docstore(db_path)`: Not-Found if no file exists at the path, else
connect, ensure schema, read every row of the three tables and reassemble
`(documents, ref_doc_info, other metadata keys)` in that insertion order. -/
def read_docstore (fs : FS) (dir name : String) :
    Except StoreError (PyDict JValue) :=
  match findFile fs.files (dir, name) with
  | none => .error .notFound
  | some f => do
      let f' ← ensure_docstore_schema f
      let docs ← decodeRows ((f'.get .documents).getD [])
      let refs ← decodeRows ((f'.get .ref_doc_info).getD [])
      let metas ← decodeRows ((f'.get .metadata).getD [])
      pure (dictInsertAll [("documents", JValue.obj docs),
        ("ref_doc_info", JValue.obj refs)] metas)

/-- The single CREATE TABLE IF NOT EXISTS of the index store. -/
def idxSchemaOps : List DBOp := [.create .index_metadata true]

/-- `_write_indexstore(db_path, data)`. -/
def write_indexstore (fs : FS) (dir name : String) (data : PyDict JValue) :
    Except StoreError FS := do
  let fs1 := fs.mkdirParents dir
  let f := fs1.connectFile (dir, name)
  let f' ← applyOps f (idxSchemaOps ++ [.clear .index_metadata] ++
    (if data.isEmpty then [] else [.upsertRows .index_metadata (encodeDictRows data)]))
  pure (fs1.commitFile (dir, name) f')

/-- Committed filesystem state after `_write_indexstore` fails partway. -/
def write_indexstore_aborted (fs : FS) (dir name : String) (j : Nat) : FS :=
  let fs1 := fs.mkdirParents dir
  let f := fs1.connectFile (dir, name)
  fs1.commitFile (dir, name) (createTables f ([TableName.index_metadata].take j))

/-- `_read_indexstore(db_path)`. -/
def read_indexstore (fs : FS) (dir name : String) :
    Except StoreError (PyDict JValue) :=
  match findFile fs.files (dir, name) with
  | none => .error .notFound
  | some f => do
      let f' ← applyOps f idxSchemaOps
      decodeRows ((f'.get .index_metadata).getD [])

/-- `DOCSTORE_DB`. -/
def DOCSTORE_DB : String := "docstore.sqlite"

/-- `INDEXSTORE_DB`. -/
def INDEXSTORE_DB : String := "indexstore.sqlite"

/-- `SqliteDocumentStore`: the in-memory `SimpleDocumentStore` (an external
collaborator, modelled by the snapshot its `to_dict` exports and its
`from_dict` consumes) plus the `_db_path` the adapter records. -/
structure SqliteDocumentStore where
  store_data : PyDict JValue
  db_path : Option (String × String)

/-- `SqliteDocumentStore.from_persist_dir(persist_dir, db_name)`. -/
def SqliteDocumentStore.from_persist_dir (fs : FS) (persist_dir : String)
    (db_name : Option String) : Except StoreError SqliteDocumentStore := do
  let name := db_name.getD DOCSTORE_DB
  let data ← read_docstore fs persist_dir name
  pure ⟨data, some (persist_dir, name)⟩

/-- `SqliteDocumentStore.persist(persist_dir, db_name)`: returns the updated
filesystem and the store with its recorded path. -/
def SqliteDocumentStore.persist (s : SqliteDocumentStore) (fs : FS)
    (persist_dir : String) (db_name : Option String) :
    Except StoreError (FS × SqliteDocumentStore) := do
  let name := db_name.getD DOCSTORE_DB
  let fs' ← write_docstore fs persist_dir name s.store_data
  pure (fs', ⟨s.store_data, some (persist_dir, name)⟩)

/-- `SqliteIndexStore`, modelled like `SqliteDocumentStore`. -/
structure SqliteIndexStore where
  store_data : PyDict JValue
  db_path : Option (String × String)

/-- `SqliteIndexStore.from_persist_dir(persist_dir, db_name)`. -/
def SqliteIndexStore.from_persist_dir (fs : FS) (persist_dir : String)
    (db_name : Option String) : Except StoreError SqliteIndexStore := do
  let name := db_name.getD INDEXSTORE_DB
  let data ← read_indexstore fs persist_dir name
  pure ⟨data, some (persist_dir, name)⟩

/-- `SqliteIndexStore.persist(persist_dir, db_name)`. -/
def SqliteIndexStore.persist (s : SqliteIndexStore) (fs : FS)
    (persist_dir : String) (db_name : Option String) :
    Except StoreError (FS × SqliteIndexStore) := do
  let name := db_name.getD INDEXSTORE_DB
  let fs' ← write_indexstore fs persist_dir name s.store_data
  pure (fs', ⟨s.store_data, some (persist_dir, name)⟩)

/-! ## Derived specification-layer definitions -/

/-- Whether the value at a key, if present, is a mapping (so that Python
could iterate `.items()` over it). -/
def objWFb (data : PyDict JValue) (k : String) : Bool :=
  match dictGet data k with
  | none => true
  | some (.obj _) => true
  | some _ => false

/-- The entries of the nested mapping stored at a key, empty if absent. -/
def itemsAt (data : PyDict JValue) (k : String) : PyDict JValue :=
  match dictGet data k with
  | some (.obj fields) => fields
  | _ => []

/-- A snapshot with a key defaulted to an empty mapping when absent. -/
def withDefault (d : PyDict JValue) (k : String) : PyDict JValue :=
  if (dictGet d k).isSome then d else d ++ [(k, JValue.obj [])]

/-- A snapshot with both optional docstore keys defaulted. -/
def withDefaults (d : PyDict JValue) : PyDict JValue :=
  withDefault (withDefault d "documents") "ref_doc_info"

/-- Explicit result of ensuring the docstore schema: absent tables are
created empty, existing tables and their rows are untouched. -/
def ensureDoc (f : DBFile) : DBFile :=
  ⟨some (f.documents.getD []), some (f.ref_doc_info.getD []),
   some (f.metadata.getD []), f.index_metadata⟩

/-- Explicit result of ensuring the indexstore schema. -/
def ensureIdx (f : DBFile) : DBFile :=
  ⟨f.documents, f.ref_doc_info, f.metadata, some (f.index_metadata.getD [])⟩

/-! ## Facts about the engine model -/

theorem applyOps_append (f : DBFile) (ops1 ops2 : List DBOp) :
    applyOps f (ops1 ++ ops2) = (applyOps f ops1) >>= fun g => applyOps g ops2 := by
  induction ops1 generalizing f with
  | nil => simp [applyOps]
  | cons op ops ih =>
      simp only [List.cons_append, applyOps]
      cases applyOp f op with
      | error e => simp
      | ok g => simp [ih g]

theorem ensure_docstore_schema_eq (f : DBFile) :
    ensure_docstore_schema f = .ok (ensureDoc f) := by
  obtain ⟨d, r, m, i⟩ := f
  cases d <;> cases r <;> cases m <;>
    simp [ensure_docstore_schema, docSchemaOps, applyOps, applyOp, DBFile.get,
      DBFile.set, ensureDoc]

theorem createTables_docTables (f : DBFile) :
    createTables f docTables = ensureDoc f := by
  obtain ⟨d, r, m, i⟩ := f
  cases d <;> cases r <;> cases m <;>
    simp [createTables, docTables, DBFile.get, DBFile.set, ensureDoc]

theorem applyOps_idxSchemaOps (f : DBFile) :
    applyOps f idxSchemaOps = .ok (ensureIdx f) := by
  obtain ⟨d, r, m, i⟩ := f
  cases i <;>
    simp [idxSchemaOps, applyOps, applyOp, DBFile.get, DBFile.set, ensureIdx]

theorem createTables_idxTables (f : DBFile) :
    createTables f [TableName.index_metadata] = ensureIdx f := by
  obtain ⟨d, r, m, i⟩ := f
  cases i <;> simp [createTables, DBFile.get, DBFile.set, ensureIdx]

theorem ensureDoc_idem (f : DBFile) : ensureDoc (ensureDoc f) = ensureDoc f := by
  simp [ensureDoc]

theorem ensureIdx_idem (f : DBFile) : ensureIdx (ensureIdx f) = ensureIdx f := by
  simp [ensureIdx]

theorem ensureDoc_preserves (f : DBFile) (t : TableName) (tbl : Table)
    (h : f.get t = some tbl) : (ensureDoc f).get t = some tbl := by
  cases t <;> simp_all [DBFile.get, ensureDoc]

theorem ensureIdx_preserves (f : DBFile) (t : TableName) (tbl : Table)
    (h : f.get t = some tbl) : (ensureIdx f).get t = some tbl := by
  cases t <;> simp_all [DBFile.get, ensureIdx]

theorem findFile_setFile (l : List ((String × String) × DBFile))
    (p : String × String) (f : DBFile) : findFile (setFile l p f) p = some f := by
  induction l with
  | nil => simp [setFile, findFile]
  | cons a rest ih =>
      obtain ⟨q, g⟩ := a
      by_cases h : q = p <;> simp [setFile, findFile, h, ih]

theorem findFile_setFile_ne (l : List ((String × String) × DBFile))
    (p q : String × String) (f : DBFile) (h : p ≠ q) :
    findFile (setFile l p f) q = findFile l q := by
  induction l with
  | nil => simp [setFile, findFile, h]
  | cons a rest ih =>
      obtain ⟨p', g⟩ := a
      by_cases h2 : p' = p <;> simp [setFile, findFile, h2, h, ih]

/-! ## Facts about dict operations -/

theorem mem_keysOf {β : Type} (d : PyDict β) (a : String × β) (h : a ∈ d) :
    a.1 ∈ keysOf d := List.mem_map_of_mem Prod.fst h

theorem dictUpsert_absent {β : Type} (d : PyDict β) (k : String) (v : β)
    (h : ∀ a ∈ d, a.1 ≠ k) : dictUpsert d k v = d ++ [(k, v)] := by
  induction d with
  | nil => rfl
  | cons a rest ih =>
      obtain ⟨k', v'⟩ := a
      have hk : k' ≠ k := h (k', v') (by simp)
      simp [dictUpsert, hk]
      exact ih (fun a ha => h a (by simp [ha]))

theorem dictInsertAll_disjoint {β : Type} (rows : PyDict β) (d : PyDict β)
    (hnd : (keysOf rows).Nodup)
    (hdisj : ∀ r ∈ rows, ∀ a ∈ d, a.1 ≠ r.1) :
    dictInsertAll d rows = d ++ rows := by
  induction rows generalizing d with
  | nil => simp [dictInsertAll]
  | cons r rest ih =>
      obtain ⟨k, v⟩ := r
      have h1 : dictUpsert d k v = d ++ [(k, v)] :=
        dictUpsert_absent d k v (fun a ha => hdisj (k, v) (by simp) a ha)
      have hstep : dictInsertAll d ((k, v) :: rest) = dictInsertAll (d ++ [(k, v)]) rest := by
        simp [dictInsertAll, h1]
      rw [hstep, ih (d ++ [(k, v)])]
      · simp
      · simp [keysOf] at hnd
        exact hnd.2
      · intro r' hr' a ha
        rcases List.mem_append.mp ha with hin | hin
        · exact hdisj r' (by simp [hr']) a hin
        · simp at hin
          rw [hin]
          simp [keysOf] at hnd
          intro hkk
          exact absurd (hkk ▸ mem_keysOf rest r' hr') (by
            simpa [keysOf] using hnd.1)

theorem keysOf_encodeDictRows (d : PyDict JValue) :
    keysOf (encodeDictRows d) = keysOf d := by
  induction d with
  | nil => rfl
  | cons a t ih => simp_all [keysOf, encodeDictRows]

theorem upsertAll_nil (rows : Table) (hnd : (keysOf rows).Nodup) :
    Table.upsertAll [] rows = rows := by
  have := dictInsertAll_disjoint rows [] hnd (by simp)
  simpa [Table.upsertAll] using this

theorem decodeRows_encodeDictRows (d : PyDict JValue) :
    decodeRows (encodeDictRows d) = .ok d := by
  induction d with
  | nil => rfl
  | cons a t ih =>
      obtain ⟨k, v⟩ := a
      simp only [encodeDictRows, List.map_cons] at ih ⊢
      simp [decodeRows, loads_dumps, ih]

theorem getItems_eq (data : PyDict JValue) (k : String) (h : objWFb data k = true) :
    getItems data k = .ok (itemsAt data k) := by
  unfold objWFb at h
  cases hd : dictGet data k with
  | none => simp [getItems, itemsAt, hd]
  | some v =>
      rw [hd] at h
      cases v <;> simp_all [getItems, itemsAt, hd]

/-! ## Computation of the write and read operations -/

theorem get_set_same (f : DBFile) (t : TableName) (a : Table) :
    (f.set t a).get t = some a := by
  cases t <;> simp [DBFile.get, DBFile.set]

theorem set_set_same (f : DBFile) (t : TableName) (a b : Table) :
    (f.set t a).set t b = f.set t b := by
  cases t <;> simp [DBFile.set]

theorem applyOps_docSchema (f : DBFile) :
    applyOps f docSchemaOps = .ok (ensureDoc f) :=
  ensure_docstore_schema_eq f

theorem applyOps_clear_insert (f : DBFile) (t : TableName) (d : PyDict JValue)
    (h : (f.get t).isSome) :
    applyOps f ([DBOp.clear t] ++
      (if d.isEmpty then [] else [DBOp.upsertRows t (encodeDictRows d)])) =
      .ok (f.set t (Table.upsertAll [] (encodeDictRows d))) := by
  obtain ⟨tbl, htbl⟩ := Option.isSome_iff_exists.mp h
  by_cases hd : d = []
  · subst hd
    simp [applyOps, applyOp, htbl, Table.upsertAll, dictInsertAll, encodeDictRows]
  · have hne : d.isEmpty = false := by
      simp [List.isEmpty_iff, hd]
    simp only [hne, Bool.false_eq_true, if_false, List.singleton_append,
      applyOps, applyOp, htbl, bind_ok_eq, get_set_same]
    rw [set_set_same]

theorem applyOps_docstoreOps (f : DBFile) (docs refs extra : PyDict JValue) :
    applyOps f (docstoreOps docs refs extra) =
      .ok ⟨some (Table.upsertAll [] (encodeDictRows docs)),
           some (Table.upsertAll [] (encodeDictRows refs)),
           some (Table.upsertAll [] (encodeDictRows extra)),
           f.index_metadata⟩ := by
  have hassoc : docstoreOps docs refs extra =
      docSchemaOps ++
       (([DBOp.clear .documents] ++
          (if docs.isEmpty then [] else [DBOp.upsertRows .documents (encodeDictRows docs)])) ++
        (([DBOp.clear .ref_doc_info] ++
           (if refs.isEmpty then [] else [DBOp.upsertRows .ref_doc_info (encodeDictRows refs)])) ++
         ([DBOp.clear .metadata] ++
          (if extra.isEmpty then [] else [DBOp.upsertRows .metadata (encodeDictRows extra)])))) := by
    simp [docstoreOps, List.append_assoc]
  rw [hassoc, applyOps_append, applyOps_docSchema, bind_ok_eq, applyOps_append,
    applyOps_clear_insert (ensureDoc f) .documents docs (by simp [ensureDoc, DBFile.get]),
    bind_ok_eq, applyOps_append,
    applyOps_clear_insert _ .ref_doc_info refs (by simp [ensureDoc, DBFile.get, DBFile.set]),
    bind_ok_eq,
    applyOps_clear_insert _ .metadata extra (by simp [ensureDoc, DBFile.get, DBFile.set])]
  obtain ⟨d, r, m, i⟩ := f
  simp [ensureDoc, DBFile.set]

theorem applyOps_idxOps (f : DBFile) (data : PyDict JValue) :
    applyOps f (idxSchemaOps ++ [.clear .index_metadata] ++
      (if data.isEmpty then [] else
        [.upsertRows .index_metadata (encodeDictRows data)])) =
      .ok ⟨f.documents, f.ref_doc_info, f.metadata,
           some (Table.upsertAll [] (encodeDictRows data))⟩ := by
  rw [List.append_assoc, applyOps_append, applyOps_idxSchemaOps, bind_ok_eq,
    applyOps_clear_insert (ensureIdx f) .index_metadata data
      (by simp [ensureIdx, DBFile.get])]
  obtain ⟨d, r, m, i⟩ := f
  simp [ensureIdx, DBFile.set]

/-- The file a docstore write commits, in terms of the snapshot pieces and
the previous file at the path. -/
def writtenDocFile (old : DBFile) (data : PyDict JValue) : DBFile :=
  ⟨some (Table.upsertAll [] (encodeDictRows (itemsAt data "documents"))),
   some (Table.upsertAll [] (encodeDictRows (itemsAt data "ref_doc_info"))),
   some (Table.upsertAll [] (encodeDictRows (extraOf data))),
   old.index_metadata⟩

theorem write_docstore_eq (fs : FS) (dir name : String) (data : PyDict JValue)
    (h1 : objWFb data "documents" = true) (h2 : objWFb data "ref_doc_info" = true) :
    write_docstore fs dir name data =
      .ok ((fs.mkdirParents dir).commitFile (dir, name)
        (writtenDocFile ((fs.mkdirParents dir).connectFile (dir, name)) data)) := by
  unfold write_docstore writtenDocFile
  rw [getItems_eq data "documents" h1, bind_ok_eq, getItems_eq data "ref_doc_info" h2,
    bind_ok_eq, applyOps_docstoreOps, bind_ok_eq]
  rfl

/-- The file an indexstore write commits. -/
def writtenIdxFile (old : DBFile) (data : PyDict JValue) : DBFile :=
  ⟨old.documents, old.ref_doc_info, old.metadata,
   some (Table.upsertAll [] (encodeDictRows data))⟩

theorem write_indexstore_eq (fs : FS) (dir name : String) (data : PyDict JValue) :
    write_indexstore fs dir name data =
      .ok ((fs.mkdirParents dir).commitFile (dir, name)
        (writtenIdxFile ((fs.mkdirParents dir).connectFile (dir, name)) data)) := by
  unfold write_indexstore writtenIdxFile
  dsimp only
  rw [applyOps_idxOps, bind_ok_eq]
  rfl

theorem keysOf_filter_nodup {β : Type} (d : PyDict β) (p : String × β → Bool)
    (hnd : (keysOf d).Nodup) : (keysOf (d.filter p)).Nodup := by
  have hsub : keysOf (d.filter p) |>.Sublist (keysOf d) :=
    List.Sublist.map Prod.fst (List.filter_sublist d)
  exact hnd.sublist hsub

theorem extraOf_nodup (data : PyDict JValue) (hnd : (keysOf data).Nodup) :
    (keysOf (extraOf data)).Nodup := keysOf_filter_nodup data _ hnd

theorem mem_extraOf (data : PyDict JValue) (a : String × JValue)
    (h : a ∈ extraOf data) : a ∈ data ∧ a.1 ≠ "documents" ∧ a.1 ≠ "ref_doc_info" := by
  have := List.mem_filter.mp h
  refine ⟨this.1, ?_⟩
  simpa using this.2

theorem read_docstore_written (fs : FS) (dir name : String)
    (docsF refsF extraF : PyDict JValue) (i : Option Table)
    (hnd1 : (keysOf docsF).Nodup) (hnd2 : (keysOf refsF).Nodup)
    (hnd3 : (keysOf extraF).Nodup)
    (hdisj : ∀ a ∈ extraF, a.1 ≠ "documents" ∧ a.1 ≠ "ref_doc_info")
    (hf : findFile fs.files (dir, name) =
      some ⟨some (Table.upsertAll [] (encodeDictRows docsF)),
            some (Table.upsertAll [] (encodeDictRows refsF)),
            some (Table.upsertAll [] (encodeDictRows extraF)), i⟩) :
    read_docstore fs dir name =
      .ok (("documents", JValue.obj docsF) ::
           ("ref_doc_info", JValue.obj refsF) :: extraF) := by
  unfold read_docstore
  rw [hf]
  dsimp only
  rw [ensure_docstore_schema_eq, bind_ok_eq]
  rw [upsertAll_nil _ (by rw [keysOf_encodeDictRows]; exact hnd1),
      upsertAll_nil _ (by rw [keysOf_encodeDictRows]; exact hnd2),
      upsertAll_nil _ (by rw [keysOf_encodeDictRows]; exact hnd3)]
  have hg1 : (ensureDoc ⟨some (encodeDictRows docsF), some (encodeDictRows refsF),
      some (encodeDictRows extraF), i⟩).get .documents = some (encodeDictRows docsF) := by
    simp [ensureDoc, DBFile.get]
  have hg2 : (ensureDoc ⟨some (encodeDictRows docsF), some (encodeDictRows refsF),
      some (encodeDictRows extraF), i⟩).get .ref_doc_info = some (encodeDictRows refsF) := by
    simp [ensureDoc, DBFile.get]
  have hg3 : (ensureDoc ⟨some (encodeDictRows docsF), some (encodeDictRows refsF),
      some (encodeDictRows extraF), i⟩).get .metadata = some (encodeDictRows extraF) := by
    simp [ensureDoc, DBFile.get]
  rw [hg1, hg2, hg3]
  simp only [Option.getD_some]
  rw [decodeRows_encodeDictRows, bind_ok_eq, decodeRows_encodeDictRows, bind_ok_eq,
      decodeRows_encodeDictRows, bind_ok_eq]
  have hins : dictInsertAll [("documents", JValue.obj docsF),
      ("ref_doc_info", JValue.obj refsF)] extraF =
      [("documents", JValue.obj docsF), ("ref_doc_info", JValue.obj refsF)] ++ extraF := by
    apply dictInsertAll_disjoint extraF _ hnd3
    intro r hr a ha
    have hr' := hdisj r hr
    simp at ha
    rcases ha with ha | ha <;> rw [ha] <;> simp
    · exact fun hc => hr'.1 hc.symm
    · exact fun hc => hr'.2 hc.symm
  rw [hins]
  rfl

/-! ## Mapping-level structural equality of the read-back snapshot -/

/-- Drop every entry with the given key. -/
def rmKey {β : Type} (d : PyDict β) (k : String) : PyDict β :=
  d.filter (fun kv => decide (kv.1 ≠ k))

theorem keysOf_cons {β : Type} (k : String) (v : β) (t : PyDict β) :
    keysOf ((k, v) :: t) = k :: keysOf t := rfl

theorem dictGet_eq_none_of_not_mem {β : Type} (d : PyDict β) (k : String)
    (h : k ∉ keysOf d) : dictGet d k = none := by
  induction d with
  | nil => rfl
  | cons a t ih =>
      obtain ⟨k', v⟩ := a
      rw [keysOf_cons] at h
      have hk : ¬(k' = k) := fun hc => h (hc ▸ List.mem_cons_self k' (keysOf t))
      have ht : k ∉ keysOf t := fun hc => h (List.mem_cons_of_mem k' hc)
      simp [dictGet, hk, ih ht]

theorem rmKey_cons_same {β : Type} (k : String) (v : β) (t : PyDict β) :
    rmKey ((k, v) :: t) k = rmKey t k := by
  simp [rmKey, List.filter_cons]

theorem rmKey_cons_ne {β : Type} (k k' : String) (v : β) (t : PyDict β)
    (h : k' ≠ k) : rmKey ((k', v) :: t) k = (k', v) :: rmKey t k := by
  simp [rmKey, List.filter_cons, h]

theorem rmKey_of_get_none {β : Type} (d : PyDict β) (k : String)
    (h : dictGet d k = none) : rmKey d k = d := by
  induction d with
  | nil => rfl
  | cons a t ih =>
      obtain ⟨k', v⟩ := a
      by_cases hk : k' = k
      · simp [dictGet, hk] at h
      · have h' : dictGet t k = none := by simpa [dictGet, hk] using h
        rw [rmKey_cons_ne k k' v t hk, ih h']

theorem dictGet_rmKey_ne {β : Type} (d : PyDict β) (k k' : String) (h : k' ≠ k) :
    dictGet (rmKey d k) k' = dictGet d k' := by
  induction d with
  | nil => rfl
  | cons a t ih =>
      obtain ⟨ka, v⟩ := a
      by_cases hk : ka = k
      · subst hk
        rw [rmKey_cons_same, ih]
        have hka : ¬(ka = k') := fun hc => h (hc ▸ rfl)
        simp [dictGet, hka]
      · rw [rmKey_cons_ne k ka v t hk]
        by_cases hk2 : ka = k'
        · simp [dictGet, hk2]
        · simp [dictGet, hk2, ih]

theorem dict_extract {β : Type} (d : PyDict β) (k : String) (v : β)
    (hnd : (keysOf d).Nodup) (hget : dictGet d k = some v) :
    d.Perm ((k, v) :: rmKey d k) := by
  induction d with
  | nil => simp [dictGet] at hget
  | cons a t ih =>
      obtain ⟨k', v'⟩ := a
      have hh := List.nodup_cons.mp (keysOf_cons k' v' t ▸ hnd)
      by_cases hk : k' = k
      · subst hk
        have hv : v' = v := by simpa [dictGet] using hget
        subst hv
        rw [rmKey_cons_same, rmKey_of_get_none t k'
          (dictGet_eq_none_of_not_mem t k' hh.1)]
      · have hget' : dictGet t k = some v := by simpa [dictGet, hk] using hget
        have hperm := ih hh.2 hget'
        rw [rmKey_cons_ne k k' v' t hk]
        exact (hperm.cons (k', v')).trans (List.Perm.swap (k, v) (k', v') (rmKey t k))

theorem dictGet_append_some {β : Type} (d e : PyDict β) (k : String) (v : β)
    (h : dictGet d k = some v) : dictGet (d ++ e) k = some v := by
  induction d with
  | nil => simp [dictGet] at h
  | cons a t ih =>
      obtain ⟨k', v'⟩ := a
      by_cases hk : k' = k
      · simpa [dictGet, hk] using h
      · have h' : dictGet t k = some v := by simpa [dictGet, hk] using h
        simpa [dictGet, hk] using ih h'

theorem dictGet_append_none {β : Type} (d e : PyDict β) (k : String)
    (h : dictGet d k = none) : dictGet (d ++ e) k = dictGet e k := by
  induction d with
  | nil => rfl
  | cons a t ih =>
      obtain ⟨k', v'⟩ := a
      by_cases hk : k' = k
      · simp [dictGet, hk] at h
      · have h' : dictGet t k = none := by simpa [dictGet, hk] using h
        simpa [dictGet, hk] using ih h'

theorem rmKey_rmKey_extra (d : PyDict JValue) :
    rmKey (rmKey d "documents") "ref_doc_info" = extraOf d := by
  induction d with
  | nil => rfl
  | cons a t ih =>
      obtain ⟨k, v⟩ := a
      by_cases h1 : k = "documents"
      · rw [show rmKey ((k, v) :: t) "documents" = rmKey t "documents" from h1 ▸
          rmKey_cons_same k v t]
        rw [ih]
        simp [extraOf, List.filter_cons, h1]
      · rw [rmKey_cons_ne _ k v t h1]
        by_cases h2 : k = "ref_doc_info"
        · rw [show rmKey ((k, v) :: rmKey t "documents") "ref_doc_info" =
            rmKey (rmKey t "documents") "ref_doc_info" from h2 ▸
            rmKey_cons_same k v (rmKey t "documents")]
          rw [ih]
          simp [extraOf, List.filter_cons, h2]
        · rw [rmKey_cons_ne _ k v (rmKey t "documents") h2, ih]
          simp [extraOf, List.filter_cons, h1, h2]

theorem itemsAt_of_get_some (data : PyDict JValue) (k : String) (v : JValue)
    (hget : dictGet data k = some v) (hwf : objWFb data k = true) :
    v = JValue.obj (itemsAt data k) := by
  unfold objWFb at hwf
  rw [hget] at hwf
  cases v <;> simp_all [itemsAt, hget]

/-- The mapping the reader reassembles is, as a mapping, a permutation of
the snapshot with absent optional keys defaulted to empty mappings. -/
theorem read_perm_withDefaults (data : PyDict JValue)
    (hnd : (keysOf data).Nodup)
    (h1 : objWFb data "documents" = true) (h2 : objWFb data "ref_doc_info" = true) :
    (("documents", JValue.obj (itemsAt data "documents")) ::
     ("ref_doc_info", JValue.obj (itemsAt data "ref_doc_info")) ::
     extraOf data).Perm (withDefaults data) := by
  cases hd : dictGet data "documents" with
  | some vd =>
      have hvd := itemsAt_of_get_some data "documents" vd hd h1
      cases hr : dictGet data "ref_doc_info" with
      | some vr =>
          have hvr := itemsAt_of_get_some data "ref_doc_info" vr hr h2
          have hw : withDefaults data = data := by
            simp [withDefaults, withDefault, hd, hr]
          rw [hw, ← hvd, ← hvr]
          have p1 := dict_extract data "documents" vd hnd hd
          have hr' : dictGet (rmKey data "documents") "ref_doc_info" = some vr := by
            rw [dictGet_rmKey_ne data "documents" "ref_doc_info" (by decide)]
            exact hr
          have p2 := dict_extract (rmKey data "documents") "ref_doc_info" vr
            (keysOf_filter_nodup data _ hnd) hr'
          rw [rmKey_rmKey_extra data] at p2
          exact (p1.trans (p2.cons ("documents", vd))).symm
      | none =>
          have hw : withDefaults data = data ++ [("ref_doc_info", JValue.obj [])] := by
            simp [withDefaults, withDefault, hd, hr]
          have hitems : itemsAt data "ref_doc_info" = [] := by
            simp [itemsAt, hr]
          rw [hw, ← hvd, hitems]
          have p1 := dict_extract data "documents" vd hnd hd
          have hextra : extraOf data = rmKey data "documents" := by
            rw [← rmKey_rmKey_extra data]
            apply rmKey_of_get_none
            rw [dictGet_rmKey_ne data "documents" "ref_doc_info" (by decide)]
            exact hr
          rw [hextra]
          have s1 : (("documents", vd) :: ("ref_doc_info", JValue.obj []) ::
              rmKey data "documents").Perm
              (("ref_doc_info", JValue.obj []) :: ("documents", vd) ::
              rmKey data "documents") :=
            List.Perm.swap ("ref_doc_info", JValue.obj []) ("documents", vd) _
          have s2 : (("ref_doc_info", JValue.obj []) :: ("documents", vd) ::
              rmKey data "documents").Perm
              (("ref_doc_info", JValue.obj []) :: data) := p1.symm.cons _
          have s3 : (("ref_doc_info", JValue.obj []) :: data).Perm
              (data ++ [("ref_doc_info", JValue.obj [])]) :=
            (List.perm_append_singleton _ _).symm
          exact (s1.trans s2).trans s3
  | none =>
      have hitems : itemsAt data "documents" = [] := by
        simp [itemsAt, hd]
      have hrmd : rmKey data "documents" = data :=
        rmKey_of_get_none data "documents" hd
      cases hr : dictGet data "ref_doc_info" with
      | some vr =>
          have hvr := itemsAt_of_get_some data "ref_doc_info" vr hr h2
          have hsome : dictGet (data ++ [("documents", JValue.obj [])]) "ref_doc_info" =
              some vr := dictGet_append_some data _ _ vr hr
          have hw : withDefaults data = data ++ [("documents", JValue.obj [])] := by
            simp [withDefaults, withDefault, hd, hsome]
          rw [hw, ← hvr, hitems]
          have p2 := dict_extract data "ref_doc_info" vr hnd hr
          have hextra : extraOf data = rmKey data "ref_doc_info" := by
            rw [← rmKey_rmKey_extra data, hrmd]
          rw [hextra]
          have s2 : (("documents", JValue.obj []) :: ("ref_doc_info", vr) ::
              rmKey data "ref_doc_info").Perm
              (("documents", JValue.obj []) :: data) := p2.symm.cons _
          have s3 : (("documents", JValue.obj []) :: data).Perm
              (data ++ [("documents", JValue.obj [])]) :=
            (List.perm_append_singleton _ _).symm
          exact s2.trans s3
      | none =>
          have hnone : dictGet (data ++ [("documents", JValue.obj [])]) "ref_doc_info" =
              none := by
            rw [dictGet_append_none data _ _ hr]
            rfl
          have hw : withDefaults data =
              (data ++ [("documents", JValue.obj [])]) ++
                [("ref_doc_info", JValue.obj [])] := by
            simp [withDefaults, withDefault, hd, hnone]
          have hitems2 : itemsAt data "ref_doc_info" = [] := by
            simp [itemsAt, hr]
          have hextra : extraOf data = data := by
            rw [← rmKey_rmKey_extra data, hrmd,
              rmKey_of_get_none data "ref_doc_info" hr]
          rw [hw, hitems, hitems2, hextra]
          have s1 : (("documents", JValue.obj []) :: ("ref_doc_info", JValue.obj []) ::
              data).Perm
              (("ref_doc_info", JValue.obj []) :: ("documents", JValue.obj []) :: data) :=
            List.Perm.swap _ _ _
          have s2 : (("ref_doc_info", JValue.obj []) :: ("documents", JValue.obj []) ::
              data).Perm
              (("ref_doc_info", JValue.obj []) :: (data ++ [("documents", JValue.obj [])])) :=
            ((List.perm_append_singleton _ _).symm).cons _
          have s3 : (("ref_doc_info", JValue.obj []) ::
              (data ++ [("documents", JValue.obj [])])).Perm
              ((data ++ [("documents", JValue.obj [])]) ++
                [("ref_doc_info", JValue.obj [])]) :=
            (List.perm_append_singleton _ _).symm
          exact (s1.trans s2).trans s3

/-! ## Error classification and failure-path lemmas -/

theorem getItems_classify (data : PyDict JValue) (k : String) :
    (∃ d, getItems data k = .ok d) ∨ getItems data k = .error (.typeErr k) := by
  unfold getItems
  cases dictGet data k with
  | none => exact Or.inl ⟨[], rfl⟩
  | some v => cases v <;> simp

theorem decodeRows_classify (t : Table) :
    (∃ d, decodeRows t = .ok d) ∨ (∃ m, decodeRows t = .error (.serialization m)) := by
  induction t with
  | nil => exact Or.inl ⟨[], rfl⟩
  | cons a rest ih =>
      obtain ⟨k, p⟩ := a
      cases hl : loads p with
      | error e => exact Or.inr ⟨e, by simp [decodeRows, hl]⟩
      | ok v =>
          rcases ih with ⟨d, hd⟩ | ⟨m, hm⟩
          · exact Or.inl ⟨(k, v) :: d, by simp [decodeRows, hl, hd]⟩
          · exact Or.inr ⟨m, by simp [decodeRows, hl, hm]⟩

theorem read_docstore_classify (fs : FS) (dir name : String) (f : DBFile)
    (hf : findFile fs.files (dir, name) = some f) :
    (∃ r, read_docstore fs dir name = .ok r) ∨
    (∃ m, read_docstore fs dir name = .error (.serialization m)) := by
  unfold read_docstore
  rw [hf]
  dsimp only
  rw [ensure_docstore_schema_eq, bind_ok_eq]
  rcases decodeRows_classify (((ensureDoc f).get .documents).getD []) with ⟨d1, hd1⟩ | ⟨m, hm⟩
  · rw [hd1, bind_ok_eq]
    rcases decodeRows_classify (((ensureDoc f).get .ref_doc_info).getD []) with
      ⟨d2, hd2⟩ | ⟨m, hm⟩
    · rw [hd2, bind_ok_eq]
      rcases decodeRows_classify (((ensureDoc f).get .metadata).getD []) with
        ⟨d3, hd3⟩ | ⟨m, hm⟩
      · rw [hd3, bind_ok_eq]
        exact Or.inl ⟨_, rfl⟩
      · rw [hm, bind_error_eq]
        exact Or.inr ⟨m, rfl⟩
    · rw [hm, bind_error_eq]
      exact Or.inr ⟨m, rfl⟩
  · rw [hm, bind_error_eq]
    exact Or.inr ⟨m, rfl⟩

theorem read_indexstore_some (fs : FS) (dir name : String) (f : DBFile)
    (hf : findFile fs.files (dir, name) = some f) :
    read_indexstore fs dir name =
      decodeRows (((ensureIdx f).get .index_metadata).getD []) := by
  unfold read_indexstore
  rw [hf]
  dsimp only
  rw [applyOps_idxSchemaOps, bind_ok_eq]

theorem read_indexstore_classify (fs : FS) (dir name : String) (f : DBFile)
    (hf : findFile fs.files (dir, name) = some f) :
    (∃ r, read_indexstore fs dir name = .ok r) ∨
    (∃ m, read_indexstore fs dir name = .error (.serialization m)) := by
  rw [read_indexstore_some fs dir name f hf]
  exact decodeRows_classify _

theorem write_docstore_classify (fs : FS) (dir name : String) (data : PyDict JValue) :
    (∃ fs', write_docstore fs dir name data = .ok fs') ∨
    (∃ k, write_docstore fs dir name data = .error (.typeErr k)) := by
  unfold write_docstore
  dsimp only
  rcases getItems_classify data "documents" with ⟨d1, h1⟩ | h1
  · rw [h1, bind_ok_eq]
    rcases getItems_classify data "ref_doc_info" with ⟨d2, h2⟩ | h2
    · rw [h2, bind_ok_eq, applyOps_docstoreOps, bind_ok_eq]
      exact Or.inl ⟨_, rfl⟩
    · rw [h2, bind_error_eq]
      exact Or.inr ⟨_, rfl⟩
  · rw [h1, bind_error_eq]
    exact Or.inr ⟨_, rfl⟩

theorem write_indexstore_ok (fs : FS) (dir name : String) (data : PyDict JValue) :
    ∃ fs', write_indexstore fs dir name data = .ok fs' :=
  ⟨_, write_indexstore_eq fs dir name data⟩

theorem mkdirParents_files (fs : FS) (d : String) :
    (fs.mkdirParents d).files = fs.files := by
  unfold FS.mkdirParents
  split <;> rfl

theorem read_docstore_some (fs : FS) (dir name : String) (f : DBFile)
    (hf : findFile fs.files (dir, name) = some f) :
    read_docstore fs dir name = (do
      let docs ← decodeRows (((ensureDoc f).get .documents).getD [])
      let refs ← decodeRows (((ensureDoc f).get .ref_doc_info).getD [])
      let metas ← decodeRows (((ensureDoc f).get .metadata).getD [])
      pure (dictInsertAll [("documents", JValue.obj docs),
        ("ref_doc_info", JValue.obj refs)] metas)) := by
  unfold read_docstore
  rw [hf]
  dsimp only
  rw [ensure_docstore_schema_eq, bind_ok_eq]

theorem ensureDoc_createTables_take (f : DBFile) (j : Nat) :
    ensureDoc (createTables f (docTables.take j)) = ensureDoc f := by
  obtain ⟨d, r, m, i⟩ := f
  match j with
  | 0 => rfl
  | 1 =>
      cases d <;>
        simp [show docTables.take 1 = [TableName.documents] from rfl,
          createTables, DBFile.get, DBFile.set, ensureDoc]
  | 2 =>
      cases d <;> cases r <;>
        simp [show docTables.take 2 = [TableName.documents, TableName.ref_doc_info] from rfl,
          createTables, DBFile.get, DBFile.set, ensureDoc]
  | n + 3 =>
      have htake : docTables.take (n + 3) = docTables := by
        simp [docTables]
      cases d <;> cases r <;> cases m <;>
        simp [htake, docTables, createTables, DBFile.get, DBFile.set, ensureDoc]

theorem ensureIdx_createTables_take (f : DBFile) (j : Nat) :
    ensureIdx (createTables f ([TableName.index_metadata].take j)) = ensureIdx f := by
  obtain ⟨d, r, m, i⟩ := f
  match j with
  | 0 => rfl
  | n + 1 =>
      have htake : [TableName.index_metadata].take (n + 1) = [TableName.index_metadata] := by
        simp
      cases i <;> simp [htake, createTables, DBFile.get, DBFile.set, ensureIdx]

theorem read_after_abort_doc (fs : FS) (dir name : String) (j : Nat) (f₀ : DBFile)
    (hf : findFile fs.files (dir, name) = some f₀) :
    read_docstore (write_docstore_aborted fs dir name j) dir name =
      read_docstore fs dir name := by
  have hconn : (fs.mkdirParents dir).connectFile (dir, name) = f₀ := by
    unfold FS.connectFile
    rw [mkdirParents_files, hf]
    rfl
  have hfind : findFile (write_docstore_aborted fs dir name j).files (dir, name) =
      some (createTables f₀ (docTables.take j)) := by
    unfold write_docstore_aborted
    dsimp only
    rw [hconn]
    unfold FS.commitFile
    exact findFile_setFile _ _ _
  rw [read_docstore_some _ dir name _ hfind, read_docstore_some fs dir name f₀ hf,
    ensureDoc_createTables_take]

theorem read_after_abort_idx (fs : FS) (dir name : String) (j : Nat) (f₀ : DBFile)
    (hf : findFile fs.files (dir, name) = some f₀) :
    read_indexstore (write_indexstore_aborted fs dir name j) dir name =
      read_indexstore fs dir name := by
  have hconn : (fs.mkdirParents dir).connectFile (dir, name) = f₀ := by
    unfold FS.connectFile
    rw [mkdirParents_files, hf]
    rfl
  have hfind : findFile (write_indexstore_aborted fs dir name j).files (dir, name) =
      some (createTables f₀ ([TableName.index_metadata].take j)) := by
    unfold write_indexstore_aborted
    dsimp only
    rw [hconn]
    unfold FS.commitFile
    exact findFile_setFile _ _ _
  rw [read_indexstore_some _ dir name _ hfind, read_indexstore_some fs dir name f₀ hf,
    ensureIdx_createTables_take]

theorem read_indexstore_written (fs : FS) (dir name : String) (data : PyDict JValue)
    (hnd : (keysOf data).Nodup) (d0 r0 m0 : Option Table)
    (hf : findFile fs.files (dir, name) =
      some ⟨d0, r0, m0, some (Table.upsertAll [] (encodeDictRows data))⟩) :
    read_indexstore fs dir name = .ok data := by
  rw [read_indexstore_some fs dir name _ hf]
  have hn : Table.upsertAll [] (encodeDictRows data) = encodeDictRows data :=
    upsertAll_nil _ (by rw [keysOf_encodeDictRows]; exact hnd)
  simp [ensureIdx, DBFile.get, hn, decodeRows_encodeDictRows]

/-! ## Filesystem helper lemmas -/

theorem mem_dirs_mkdirParents (fs : FS) (d : String) : d ∈ (fs.mkdirParents d).dirs := by
  unfold FS.mkdirParents
  split
  · assumption
  · exact List.mem_cons_self d fs.dirs

theorem mkdirParents_of_mem (fs : FS) (d : String) (h : d ∈ fs.dirs) :
    fs.mkdirParents d = fs := by
  unfold FS.mkdirParents
  simp [h]

theorem commitFile_dirs (fs : FS) (p : String × String) (f : DBFile) :
    (fs.commitFile p f).dirs = fs.dirs := rfl

theorem mkdir_commit_mkdir (fs : FS) (dir : String) (p : String × String) (f : DBFile) :
    ((fs.mkdirParents dir).commitFile p f).mkdirParents dir =
      (fs.mkdirParents dir).commitFile p f := by
  apply mkdirParents_of_mem
  rw [commitFile_dirs]
  exact mem_dirs_mkdirParents fs dir

theorem connectFile_commit (fs : FS) (p : String × String) (f : DBFile) :
    (fs.commitFile p f).connectFile p = f := by
  unfold FS.connectFile FS.commitFile
  rw [findFile_setFile]
  rfl

theorem writtenDocFile_twice (old : DBFile) (S1 S2 : PyDict JValue) :
    writtenDocFile (writtenDocFile old S1) S2 = writtenDocFile old S2 := by
  simp [writtenDocFile]

theorem writtenIdxFile_twice (old : DBFile) (I1 I2 : PyDict JValue) :
    writtenIdxFile (writtenIdxFile old I1) I2 = writtenIdxFile old I2 := by
  simp [writtenIdxFile]

theorem get_set_ne (f : DBFile) (t t' : TableName) (a : Table) (h : t ≠ t') :
    (f.set t' a).get t = f.get t := by
  cases t <;> cases t' <;> simp_all [DBFile.get, DBFile.set]

theorem createTables_preserves (ts : List TableName) (f : DBFile) (t : TableName)
    (tbl : Table) (h : f.get t = some tbl) : (createTables f ts).get t = some tbl := by
  induction ts generalizing f with
  | nil => exact h
  | cons t' ts' ih =>
      unfold createTables
      cases hg : f.get t' with
      | some tbl' => exact ih f h
      | none =>
          apply ih
          have hne : t ≠ t' := by
            intro hc
            rw [hc, hg] at h
            cases h
          rw [get_set_ne f t t' [] hne]
          exact h

theorem write_docstore_ok_file (fs : FS) (dir name : String) (data : PyDict JValue)
    (fs' : FS) (h : write_docstore fs dir name data = .ok fs') :
    ∃ f, findFile fs'.files (dir, name) = some f := by
  unfold write_docstore at h
  dsimp only at h
  rcases getItems_classify data "documents" with ⟨d1, h1⟩ | h1 <;> rw [h1] at h
  · rw [bind_ok_eq] at h
    rcases getItems_classify data "ref_doc_info" with ⟨d2, h2⟩ | h2 <;> rw [h2] at h
    · rw [bind_ok_eq, applyOps_docstoreOps, bind_ok_eq] at h
      cases h
      exact ⟨_, findFile_setFile _ _ _⟩
    · rw [bind_error_eq] at h
      cases h
  · rw [bind_error_eq] at h
    cases h

/-! ## The claims -/

/-- C1: for every snapshot whose values are JSON-compatible nested structures,
writing it to a path with the document-store writer and then reading that path
back yields a mapping structurally equal (as a mapping: up to entry
permutation) to the snapshot, where an absent `documents` or `ref_doc_info`
key is read back as an empty mapping. -/
theorem C1_docstore_round_trip (fs : FS) (dir name : String) (data : PyDict JValue)
    (hnd : (keysOf data).Nodup)
    (h1 : objWFb data "documents" = true)
    (h2 : objWFb data "ref_doc_info" = true)
    (hnd1 : (keysOf (itemsAt data "documents")).Nodup)
    (hnd2 : (keysOf (itemsAt data "ref_doc_info")).Nodup) :
    ∃ fs' r, write_docstore fs dir name data = .ok fs' ∧
      read_docstore fs' dir name = .ok r ∧ r.Perm (withDefaults data) := by
  have hw := write_docstore_eq fs dir name data h1 h2
  have hfind : findFile ((fs.mkdirParents dir).commitFile (dir, name)
      (writtenDocFile ((fs.mkdirParents dir).connectFile (dir, name)) data)).files
      (dir, name) =
      some (writtenDocFile ((fs.mkdirParents dir).connectFile (dir, name)) data) := by
    unfold FS.commitFile
    exact findFile_setFile _ _ _
  have hread := read_docstore_written _ dir name (itemsAt data "documents")
    (itemsAt data "ref_doc_info") (extraOf data)
    (((fs.mkdirParents dir).connectFile (dir, name)).index_metadata)
    hnd1 hnd2 (extraOf_nodup data hnd)
    (fun a ha => (mem_extraOf data a ha).2) hfind
  exact ⟨_, _, hw, hread, read_perm_withDefaults data hnd h1 h2⟩

/-- C2: writing snapshot S1 then snapshot S2 to the same path and reading
yields exactly the result of writing S2 alone, for both the document store
and the index store: nothing present only in S1 survives. -/
theorem C2_overwrite_not_union (fs : FS) (dir name : String)
    (S1 S2 I1 I2 : PyDict JValue)
    (ha1 : objWFb S1 "documents" = true) (ha2 : objWFb S1 "ref_doc_info" = true)
    (hb1 : objWFb S2 "documents" = true) (hb2 : objWFb S2 "ref_doc_info" = true) :
    (∃ fs1 fs12 fs2,
      write_docstore fs dir name S1 = .ok fs1 ∧
      write_docstore fs1 dir name S2 = .ok fs12 ∧
      write_docstore fs dir name S2 = .ok fs2 ∧
      read_docstore fs12 dir name = read_docstore fs2 dir name) ∧
    (∃ gs1 gs12 gs2,
      write_indexstore fs dir name I1 = .ok gs1 ∧
      write_indexstore gs1 dir name I2 = .ok gs12 ∧
      write_indexstore fs dir name I2 = .ok gs2 ∧
      read_indexstore gs12 dir name = read_indexstore gs2 dir name) := by
  constructor
  · have hw1 := write_docstore_eq fs dir name S1 ha1 ha2
    set old := (fs.mkdirParents dir).connectFile (dir, name) with hold
    set fs1 := (fs.mkdirParents dir).commitFile (dir, name) (writtenDocFile old S1)
      with hfs1
    have hw12 := write_docstore_eq fs1 dir name S2 hb1 hb2
    have hmk : fs1.mkdirParents dir = fs1 := mkdir_commit_mkdir fs dir _ _
    rw [hmk] at hw12
    have hconn : fs1.connectFile (dir, name) = writtenDocFile old S1 :=
      connectFile_commit _ _ _
    rw [hconn, writtenDocFile_twice] at hw12
    have hw2 := write_docstore_eq fs dir name S2 hb1 hb2
    refine ⟨fs1, _, _, hw1, hw12, hw2, ?_⟩
    have hfindA : findFile (fs1.commitFile (dir, name) (writtenDocFile old S2)).files
        (dir, name) = some (writtenDocFile old S2) := findFile_setFile _ _ _
    have hfindB : findFile ((fs.mkdirParents dir).commitFile (dir, name)
        (writtenDocFile old S2)).files (dir, name) = some (writtenDocFile old S2) :=
      findFile_setFile _ _ _
    rw [read_docstore_some _ dir name _ hfindA, read_docstore_some _ dir name _ hfindB]
  · have hw1 := write_indexstore_eq fs dir name I1
    set old := (fs.mkdirParents dir).connectFile (dir, name) with hold
    set gs1 := (fs.mkdirParents dir).commitFile (dir, name) (writtenIdxFile old I1)
      with hgs1
    have hw12 := write_indexstore_eq gs1 dir name I2
    have hmk : gs1.mkdirParents dir = gs1 := mkdir_commit_mkdir fs dir _ _
    rw [hmk] at hw12
    have hconn : gs1.connectFile (dir, name) = writtenIdxFile old I1 :=
      connectFile_commit _ _ _
    rw [hconn, writtenIdxFile_twice] at hw12
    have hw2 := write_indexstore_eq fs dir name I2
    refine ⟨gs1, _, _, hw1, hw12, hw2, ?_⟩
    have hfindA : findFile (gs1.commitFile (dir, name) (writtenIdxFile old I2)).files
        (dir, name) = some (writtenIdxFile old I2) := findFile_setFile _ _ _
    have hfindB : findFile ((fs.mkdirParents dir).commitFile (dir, name)
        (writtenIdxFile old I2)).files (dir, name) = some (writtenIdxFile old I2) :=
      findFile_setFile _ _ _
    rw [read_indexstore_some _ dir name _ hfindA, read_indexstore_some _ dir name _ hfindB]

/-- C3: each reader raises Not-Found exactly when no database file exists at
the resolved path; the writers never raise Not-Found and, when they succeed,
have created the parent directory and the database file as needed. -/
theorem C3_notfound_reader_only (fs : FS) (dir name : String) (data : PyDict JValue) :
    (read_docstore fs dir name = .error .notFound ↔
      findFile fs.files (dir, name) = none) ∧
    (read_indexstore fs dir name = .error .notFound ↔
      findFile fs.files (dir, name) = none) ∧
    write_docstore fs dir name data ≠ .error .notFound ∧
    write_indexstore fs dir name data ≠ .error .notFound ∧
    (objWFb data "documents" = true → objWFb data "ref_doc_info" = true →
      ∃ fs', write_docstore fs dir name data = .ok fs' ∧
        dir ∈ fs'.dirs ∧ ∃ f, findFile fs'.files (dir, name) = some f) ∧
    (∃ gs, write_indexstore fs dir name data = .ok gs ∧
      dir ∈ gs.dirs ∧ ∃ g, findFile gs.files (dir, name) = some g) := by
  refine ⟨?_, ?_, ?_, ?_, ?_, ?_⟩
  · constructor
    · intro h
      cases hfind : findFile fs.files (dir, name) with
      | none => rfl
      | some f =>
          rcases read_docstore_classify fs dir name f hfind with ⟨r, hr⟩ | ⟨m, hm⟩
          · rw [hr] at h
            cases h
          · rw [hm] at h
            cases h
    · intro h
      unfold read_docstore
      rw [h]
  · constructor
    · intro h
      cases hfind : findFile fs.files (dir, name) with
      | none => rfl
      | some f =>
          rcases read_indexstore_classify fs dir name f hfind with ⟨r, hr⟩ | ⟨m, hm⟩
          · rw [hr] at h
            cases h
          · rw [hm] at h
            cases h
    · intro h
      unfold read_indexstore
      rw [h]
  · rcases write_docstore_classify fs dir name data with ⟨fs', h⟩ | ⟨k, h⟩ <;>
      rw [h] <;> intro hc <;> cases hc
  · rw [write_indexstore_eq]
    intro hc
    cases hc
  · intro h1 h2
    refine ⟨_, write_docstore_eq fs dir name data h1 h2, ?_, ?_⟩
    · rw [commitFile_dirs]
      exact mem_dirs_mkdirParents fs dir
    · exact ⟨_, findFile_setFile _ _ _⟩
  · refine ⟨_, write_indexstore_eq fs dir name data, ?_, ?_⟩
    · rw [commitFile_dirs]
      exact mem_dirs_mkdirParents fs dir
    · exact ⟨_, findFile_setFile _ _ _⟩

/-- C4: a write is all-or-nothing. On success the single committed file holds
every table replacement together; if the write fails at any step (any prefix
of its statements, with uncommitted work rolled back), a path that already
held a file reads back exactly as before, and every previously persisted row
of every table is still present — a read never observes a partial mix. -/
theorem C4_write_atomicity (fs : FS) (dir name : String) (j : Nat) (f₀ : DBFile)
    (data : PyDict JValue) (hf : findFile fs.files (dir, name) = some f₀) :
    read_docstore (write_docstore_aborted fs dir name j) dir name =
      read_docstore fs dir name ∧
    read_indexstore (write_indexstore_aborted fs dir name j) dir name =
      read_indexstore fs dir name ∧
    (∀ (t : TableName) (tbl : Table), f₀.get t = some tbl →
      ∃ f₁, findFile (write_docstore_aborted fs dir name j).files (dir, name) =
        some f₁ ∧ f₁.get t = some tbl) ∧
    (objWFb data "documents" = true → objWFb data "ref_doc_info" = true →
      write_docstore fs dir name data = .ok ((fs.mkdirParents dir).commitFile
        (dir, name) (writtenDocFile f₀ data))) := by
  have hconn : (fs.mkdirParents dir).connectFile (dir, name) = f₀ := by
    unfold FS.connectFile
    rw [mkdirParents_files, hf]
    rfl
  refine ⟨read_after_abort_doc fs dir name j f₀ hf,
    read_after_abort_idx fs dir name j f₀ hf, ?_, ?_⟩
  · intro t tbl ht
    refine ⟨createTables f₀ (docTables.take j), ?_, createTables_preserves _ f₀ t tbl ht⟩
    unfold write_docstore_aborted
    dsimp only
    rw [hconn]
    unfold FS.commitFile
    exact findFile_setFile _ _ _
  · intro h1 h2
    rw [write_docstore_eq fs dir name data h1 h2, hconn]

/-- C5: persisting the empty snapshot and reading it back succeeds and
returns the empty snapshot; the database file exists at the path afterwards
(an empty store, distinct from a missing file). -/
theorem C5_empty_snapshot_valid (fs : FS) (dir name : String) :
    ∃ fs', write_docstore fs dir name
        [("documents", JValue.obj []), ("ref_doc_info", JValue.obj [])] = .ok fs' ∧
      read_docstore fs' dir name =
        .ok [("documents", JValue.obj []), ("ref_doc_info", JValue.obj [])] ∧
      ∃ f, findFile fs'.files (dir, name) = some f := by
  have hw := write_docstore_eq fs dir name
    [("documents", JValue.obj []), ("ref_doc_info", JValue.obj [])] rfl rfl
  have hfind : findFile ((fs.mkdirParents dir).commitFile (dir, name)
      (writtenDocFile ((fs.mkdirParents dir).connectFile (dir, name))
        [("documents", JValue.obj []), ("ref_doc_info", JValue.obj [])])).files
      (dir, name) =
      some (writtenDocFile ((fs.mkdirParents dir).connectFile (dir, name))
        [("documents", JValue.obj []), ("ref_doc_info", JValue.obj [])]) := by
    unfold FS.commitFile
    exact findFile_setFile _ _ _
  have hread := read_docstore_written _ dir name [] [] []
    (((fs.mkdirParents dir).connectFile (dir, name)).index_metadata)
    (by simp [keysOf]) (by simp [keysOf]) (by simp [keysOf])
    (by intro a ha; cases ha) hfind
  exact ⟨_, hw, hread, ⟨_, hfind⟩⟩

/-- C6: schema creation is idempotent. Ensuring the schema never fails (in
particular never with a table-already-exists error), never drops or alters an
existing table or its rows, and is idempotent; consequently no write or read
call ever fails with a table-already-exists error, whatever the prior state
at the path. -/
theorem C6_idempotent_schema :
    (∀ f : DBFile, ensure_docstore_schema f = .ok (ensureDoc f)) ∧
    (∀ f : DBFile, applyOps f idxSchemaOps = .ok (ensureIdx f)) ∧
    (∀ (f : DBFile) (t : TableName) (tbl : Table), f.get t = some tbl →
      (ensureDoc f).get t = some tbl ∧ (ensureIdx f).get t = some tbl) ∧
    (∀ f : DBFile, ensureDoc (ensureDoc f) = ensureDoc f ∧
      ensureIdx (ensureIdx f) = ensureIdx f) ∧
    (∀ (fs : FS) (dir name : String) (data : PyDict JValue) (t : TableName),
      write_docstore fs dir name data ≠ .error (.tableExists t) ∧
      write_indexstore fs dir name data ≠ .error (.tableExists t) ∧
      read_docstore fs dir name ≠ .error (.tableExists t) ∧
      read_indexstore fs dir name ≠ .error (.tableExists t)) := by
  refine ⟨ensure_docstore_schema_eq, applyOps_idxSchemaOps, ?_, ?_, ?_⟩
  · intro f t tbl h
    exact ⟨ensureDoc_preserves f t tbl h, ensureIdx_preserves f t tbl h⟩
  · intro f
    exact ⟨ensureDoc_idem f, ensureIdx_idem f⟩
  · intro fs dir name data t
    refine ⟨?_, ?_, ?_, ?_⟩
    · rcases write_docstore_classify fs dir name data with ⟨fs', h⟩ | ⟨k, h⟩ <;>
        rw [h] <;> intro hc <;> cases hc
    · rw [write_indexstore_eq]
      intro hc
      cases hc
    · cases hfind : findFile fs.files (dir, name) with
      | none =>
          unfold read_docstore
          rw [hfind]
          intro hc
          cases hc
      | some f =>
          rcases read_docstore_classify fs dir name f hfind with ⟨r, hr⟩ | ⟨m, hm⟩ <;>
            first
            | (rw [hr]; intro hc; cases hc)
            | (rw [hm]; intro hc; cases hc)
    · cases hfind : findFile fs.files (dir, name) with
      | none =>
          unfold read_indexstore
          rw [hfind]
          intro hc
          cases hc
      | some f =>
          rcases read_indexstore_classify fs dir name f hfind with ⟨r, hr⟩ | ⟨m, hm⟩ <;>
            first
            | (rw [hr]; intro hc; cases hc)
            | (rw [hm]; intro hc; cases hc)

/-- C7: the index-store writer replaces the index_metadata table with exactly
the key/value pairs of the flat snapshot (encoded one row per pair, no
sub-namespaces), and reading the path back yields the snapshot itself. -/
theorem C7_indexstore_round_trip (fs : FS) (dir name : String) (data : PyDict JValue)
    (hnd : (keysOf data).Nodup) :
    ∃ fs' f, write_indexstore fs dir name data = .ok fs' ∧
      findFile fs'.files (dir, name) = some f ∧
      f.index_metadata = some (encodeDictRows data) ∧
      read_indexstore fs' dir name = .ok data := by
  have hw := write_indexstore_eq fs dir name data
  have hn : Table.upsertAll [] (encodeDictRows data) = encodeDictRows data :=
    upsertAll_nil _ (by rw [keysOf_encodeDictRows]; exact hnd)
  have hfind : findFile ((fs.mkdirParents dir).commitFile (dir, name)
      (writtenIdxFile ((fs.mkdirParents dir).connectFile (dir, name)) data)).files
      (dir, name) =
      some (writtenIdxFile ((fs.mkdirParents dir).connectFile (dir, name)) data) := by
    unfold FS.commitFile
    exact findFile_setFile _ _ _
  refine ⟨_, _, hw, hfind, ?_, ?_⟩
  · show some (Table.upsertAll [] (encodeDictRows data)) = some (encodeDictRows data)
    rw [hn]
  · exact read_indexstore_written _ dir name data hnd _ _ _ hfind

theorem decodeRows_error_mid (pre post : Table) (id p e : String)
    (hpre : ∀ q ∈ pre, ∃ v, loads q.2 = .ok v) (hbad : loads p = .error e) :
    decodeRows (pre ++ (id, p) :: post) = .error (.serialization e) := by
  induction pre with
  | nil => simp [decodeRows, hbad]
  | cons q rest ih =>
      obtain ⟨k, s⟩ := q
      obtain ⟨v, hv⟩ := hpre (k, s) (by simp)
      have ih' := ih (fun q hq => hpre q (by simp [hq]))
      simp at hv
      simp [decodeRows, hv, ih']

theorem decodeRows_ok_of_all (rows : Table)
    (h : ∀ q ∈ rows, ∃ v, loads q.2 = .ok v) : ∃ d, decodeRows rows = .ok d := by
  induction rows with
  | nil => exact ⟨[], rfl⟩
  | cons q rest ih =>
      obtain ⟨k, s⟩ := q
      obtain ⟨v, hv⟩ := h (k, s) (by simp)
      obtain ⟨d, hd⟩ := ih (fun q hq => h q (by simp [hq]))
      simp at hv
      exact ⟨(k, v) :: d, by simp [decodeRows, hv, hd]⟩

/-- C8: a stored payload that is not a valid encoding makes the read fail
with the decoder's own error wrapped as a serialization error — the very
error the codec produced, not a skipped row or a default value — whichever
table of the document store holds the bad row (documents, ref_doc_info or
metadata, the rows before it being decodable), and likewise for the index
store. -/
theorem C8_serialization_propagated :
    (∀ (fs : FS) (dir name : String) (f : DBFile) (pre post : Table)
      (id p e : String),
      findFile fs.files (dir, name) = some f →
      f.documents = some (pre ++ (id, p) :: post) →
      (∀ q ∈ pre, ∃ v, loads q.2 = .ok v) →
      loads p = .error e →
      read_docstore fs dir name = .error (.serialization e)) ∧
    (∀ (fs : FS) (dir name : String) (f : DBFile) (pre post : Table)
      (id p e : String),
      findFile fs.files (dir, name) = some f →
      (∀ q ∈ f.documents.getD [], ∃ v, loads q.2 = .ok v) →
      f.ref_doc_info = some (pre ++ (id, p) :: post) →
      (∀ q ∈ pre, ∃ v, loads q.2 = .ok v) →
      loads p = .error e →
      read_docstore fs dir name = .error (.serialization e)) ∧
    (∀ (fs : FS) (dir name : String) (f : DBFile) (pre post : Table)
      (id p e : String),
      findFile fs.files (dir, name) = some f →
      (∀ q ∈ f.documents.getD [], ∃ v, loads q.2 = .ok v) →
      (∀ q ∈ f.ref_doc_info.getD [], ∃ v, loads q.2 = .ok v) →
      f.metadata = some (pre ++ (id, p) :: post) →
      (∀ q ∈ pre, ∃ v, loads q.2 = .ok v) →
      loads p = .error e →
      read_docstore fs dir name = .error (.serialization e)) ∧
    (∀ (fs : FS) (dir name : String) (f : DBFile) (pre post : Table)
      (id p e : String),
      findFile fs.files (dir, name) = some f →
      f.index_metadata = some (pre ++ (id, p) :: post) →
      (∀ q ∈ pre, ∃ v, loads q.2 = .ok v) →
      loads p = .error e →
      read_indexstore fs dir name = .error (.serialization e)) := by
  refine ⟨?_, ?_, ?_, ?_⟩
  · intro fs dir name f pre post id p e hfind hdoc hpre hbad
    rw [read_docstore_some fs dir name f hfind]
    have hget : ((ensureDoc f).get .documents).getD [] = pre ++ (id, p) :: post := by
      simp [ensureDoc, DBFile.get, hdoc]
    rw [hget, decodeRows_error_mid pre post id p e hpre hbad, bind_error_eq]
  · intro fs dir name f pre post id p e hfind hdocs href hpre hbad
    rw [read_docstore_some fs dir name f hfind]
    have hg1 : ((ensureDoc f).get .documents).getD [] = f.documents.getD [] := by
      simp [ensureDoc, DBFile.get]
    obtain ⟨d1, hd1⟩ := decodeRows_ok_of_all (f.documents.getD []) hdocs
    rw [hg1, hd1, bind_ok_eq]
    have hg2 : ((ensureDoc f).get .ref_doc_info).getD [] = pre ++ (id, p) :: post := by
      simp [ensureDoc, DBFile.get, href]
    rw [hg2, decodeRows_error_mid pre post id p e hpre hbad, bind_error_eq]
  · intro fs dir name f pre post id p e hfind hdocs hrefs hmeta hpre hbad
    rw [read_docstore_some fs dir name f hfind]
    have hg1 : ((ensureDoc f).get .documents).getD [] = f.documents.getD [] := by
      simp [ensureDoc, DBFile.get]
    obtain ⟨d1, hd1⟩ := decodeRows_ok_of_all (f.documents.getD []) hdocs
    rw [hg1, hd1, bind_ok_eq]
    have hg2 : ((ensureDoc f).get .ref_doc_info).getD [] = f.ref_doc_info.getD [] := by
      simp [ensureDoc, DBFile.get]
    obtain ⟨d2, hd2⟩ := decodeRows_ok_of_all (f.ref_doc_info.getD []) hrefs
    rw [hg2, hd2, bind_ok_eq]
    have hg3 : ((ensureDoc f).get .metadata).getD [] = pre ++ (id, p) :: post := by
      simp [ensureDoc, DBFile.get, hmeta]
    rw [hg3, decodeRows_error_mid pre post id p e hpre hbad, bind_error_eq]
  · intro fs dir name f pre post id p e hfind hidx hpre hbad
    rw [read_indexstore_some fs dir name f hfind]
    have hget : ((ensureIdx f).get .index_metadata).getD [] = pre ++ (id, p) :: post := by
      simp [ensureIdx, DBFile.get, hidx]
    rw [hget]
    exact decodeRows_error_mid pre post id p e hpre hbad

/-- C9: both adapters resolve the target file as the directory joined with
the override name when supplied and the convention name otherwise, and a
successful hydrate or persist records the resolved path on the instance;
hydration initializes the instance state from the decoded snapshot and
persistence writes the database file at the resolved path. -/
theorem C9_adapters_resolve_and_record (fs : FS) (dir : String) (oname : Option String) :
    (∀ inst, SqliteDocumentStore.from_persist_dir fs dir oname = .ok inst →
      inst.db_path = some (dir, oname.getD DOCSTORE_DB) ∧
      read_docstore fs dir (oname.getD DOCSTORE_DB) = .ok inst.store_data) ∧
    (∀ (s : SqliteDocumentStore) fs' s',
      SqliteDocumentStore.persist s fs dir oname = .ok (fs', s') →
      s'.db_path = some (dir, oname.getD DOCSTORE_DB) ∧
      s'.store_data = s.store_data ∧
      ∃ f, findFile fs'.files (dir, oname.getD DOCSTORE_DB) = some f) ∧
    (∀ inst, SqliteIndexStore.from_persist_dir fs dir oname = .ok inst →
      inst.db_path = some (dir, oname.getD INDEXSTORE_DB) ∧
      read_indexstore fs dir (oname.getD INDEXSTORE_DB) = .ok inst.store_data) ∧
    (∀ (s : SqliteIndexStore) fs' s',
      SqliteIndexStore.persist s fs dir oname = .ok (fs', s') →
      s'.db_path = some (dir, oname.getD INDEXSTORE_DB) ∧
      s'.store_data = s.store_data ∧
      ∃ f, findFile fs'.files (dir, oname.getD INDEXSTORE_DB) = some f) := by
  refine ⟨?_, ?_, ?_, ?_⟩
  · intro inst h
    unfold SqliteDocumentStore.from_persist_dir at h
    dsimp only at h
    cases hr : read_docstore fs dir (oname.getD DOCSTORE_DB) with
    | error e =>
        rw [hr, bind_error_eq] at h
        cases h
    | ok d =>
        rw [hr, bind_ok_eq] at h
        cases h
        exact ⟨rfl, rfl⟩
  · intro s fs' s' h
    unfold SqliteDocumentStore.persist at h
    dsimp only at h
    cases hw : write_docstore fs dir (oname.getD DOCSTORE_DB) s.store_data with
    | error e =>
        rw [hw, bind_error_eq] at h
        cases h
    | ok g =>
        rw [hw, bind_ok_eq] at h
        cases h
        exact ⟨rfl, rfl, write_docstore_ok_file fs dir _ s.store_data _ hw⟩
  · intro inst h
    unfold SqliteIndexStore.from_persist_dir at h
    dsimp only at h
    cases hr : read_indexstore fs dir (oname.getD INDEXSTORE_DB) with
    | error e =>
        rw [hr, bind_error_eq] at h
        cases h
    | ok d =>
        rw [hr, bind_ok_eq] at h
        cases h
        exact ⟨rfl, rfl⟩
  · intro s fs' s' h
    unfold SqliteIndexStore.persist at h
    dsimp only at h
    cases hw : write_indexstore fs dir (oname.getD INDEXSTORE_DB) s.store_data with
    | error e =>
        rw [hw, bind_error_eq] at h
        cases h
    | ok g =>
        rw [hw, bind_ok_eq] at h
        cases h
        rw [write_indexstore_eq] at hw
        cases hw
        exact ⟨rfl, rfl, ⟨_, findFile_setFile _ _ _⟩⟩

/-- C10: the document-store writer accepts any mapping, not only those with
`documents` and `ref_doc_info` keys: a missing key is treated as an empty
mapping (its table is cleared and left empty) while every other top-level
key is stored in the metadata table. -/
theorem C10_missing_keys_ok (fs : FS) (dir name : String) (data : PyDict JValue)
    (hnd : (keysOf data).Nodup)
    (h1 : objWFb data "documents" = true)
    (h2 : objWFb data "ref_doc_info" = true) :
    ∃ fs' f, write_docstore fs dir name data = .ok fs' ∧
      findFile fs'.files (dir, name) = some f ∧
      (dictGet data "documents" = none → f.documents = some []) ∧
      (dictGet data "ref_doc_info" = none → f.ref_doc_info = some []) ∧
      f.metadata = some (encodeDictRows (extraOf data)) := by
  have hw := write_docstore_eq fs dir name data h1 h2
  have hfind : findFile ((fs.mkdirParents dir).commitFile (dir, name)
      (writtenDocFile ((fs.mkdirParents dir).connectFile (dir, name)) data)).files
      (dir, name) =
      some (writtenDocFile ((fs.mkdirParents dir).connectFile (dir, name)) data) := by
    unfold FS.commitFile
    exact findFile_setFile _ _ _
  refine ⟨_, _, hw, hfind, ?_, ?_, ?_⟩
  · intro hnone
    show some (Table.upsertAll [] (encodeDictRows (itemsAt data "documents"))) = some []
    rw [show itemsAt data "documents" = [] by simp [itemsAt, hnone]]
    rfl
  · intro hnone
    show some (Table.upsertAll [] (encodeDictRows (itemsAt data "ref_doc_info"))) = some []
    rw [show itemsAt data "ref_doc_info" = [] by simp [itemsAt, hnone]]
    rfl
  · show some (Table.upsertAll [] (encodeDictRows (extraOf data))) =
      some (encodeDictRows (extraOf data))
    rw [upsertAll_nil _ (by rw [keysOf_encodeDictRows]; exact extraOf_nodup data hnd)]

/-! ## Concrete witnesses -/

/-- Witness for C1 at the spec's Scenario A snapshot. -/
theorem C1_witness :
    ∃ fs' r, write_docstore ⟨[], []⟩ "persist" "docstore.sqlite"
        [("documents", JValue.obj [("d1", JValue.obj [("text", JValue.str "hello")])]),
         ("ref_doc_info", JValue.obj [])] = .ok fs' ∧
      read_docstore fs' "persist" "docstore.sqlite" = .ok r ∧
      r.Perm (withDefaults
        [("documents", JValue.obj [("d1", JValue.obj [("text", JValue.str "hello")])]),
         ("ref_doc_info", JValue.obj [])]) :=
  C1_docstore_round_trip ⟨[], []⟩ "persist" "docstore.sqlite" _
    (by decide) (by decide) (by decide) (by decide) (by decide)

/-- Witness for C2 at two concrete snapshot pairs. -/
theorem C2_witness :
    (∃ fs1 fs12 fs2,
      write_docstore ⟨[], []⟩ "d" "f"
        [("documents", JValue.obj [("a", JValue.null)]),
         ("ref_doc_info", JValue.obj [])] = .ok fs1 ∧
      write_docstore fs1 "d" "f"
        [("documents", JValue.obj []), ("ref_doc_info", JValue.obj [])] = .ok fs12 ∧
      write_docstore ⟨[], []⟩ "d" "f"
        [("documents", JValue.obj []), ("ref_doc_info", JValue.obj [])] = .ok fs2 ∧
      read_docstore fs12 "d" "f" = read_docstore fs2 "d" "f") ∧
    (∃ gs1 gs12 gs2,
      write_indexstore ⟨[], []⟩ "d" "f" [("i", JValue.null)] = .ok gs1 ∧
      write_indexstore gs1 "d" "f" [] = .ok gs12 ∧
      write_indexstore ⟨[], []⟩ "d" "f" [] = .ok gs2 ∧
      read_indexstore gs12 "d" "f" = read_indexstore gs2 "d" "f") :=
  C2_overwrite_not_union ⟨[], []⟩ "d" "f"
    [("documents", JValue.obj [("a", JValue.null)]), ("ref_doc_info", JValue.obj [])]
    [("documents", JValue.obj []), ("ref_doc_info", JValue.obj [])]
    [("i", JValue.null)] []
    (by decide) (by decide) (by decide) (by decide)

/-- Witness for C3: the writer creates directory and file for a snapshot with
only an extra metadata key, on a fresh filesystem. -/
theorem C3_witness :
    ∃ fs', write_docstore ⟨[], []⟩ "d" "f" [("class_name", JValue.str "X")] = .ok fs' ∧
      "d" ∈ fs'.dirs ∧ ∃ f, findFile fs'.files ("d", "f") = some f :=
  (C3_notfound_reader_only ⟨[], []⟩ "d" "f" [("class_name", JValue.str "X")]).2.2.2.2.1
    (by decide) (by decide)

/-- Witness for C4 at a filesystem that already holds a store file. -/
theorem C4_witness :
    read_docstore (write_docstore_aborted
        ⟨["d"], [(("d", "f"), ⟨some [("k", "v")], none, none, some [("i", "w")]⟩)]⟩
        "d" "f" 1) "d" "f" =
      read_docstore
        ⟨["d"], [(("d", "f"), ⟨some [("k", "v")], none, none, some [("i", "w")]⟩)]⟩
        "d" "f" ∧
    ∃ f₁, findFile (write_docstore_aborted
        ⟨["d"], [(("d", "f"), ⟨some [("k", "v")], none, none, some [("i", "w")]⟩)]⟩
        "d" "f" 1).files ("d", "f") = some f₁ ∧
      f₁.get .documents = some [("k", "v")] := by
  have h := C4_write_atomicity
    ⟨["d"], [(("d", "f"), ⟨some [("k", "v")], none, none, some [("i", "w")]⟩)]⟩
    "d" "f" 1 ⟨some [("k", "v")], none, none, some [("i", "w")]⟩ [] (by decide)
  exact ⟨h.1, h.2.2.1 .documents [("k", "v")] rfl⟩

/-- Witness for C6: schema creation preserves a concrete populated table and
a concrete call sequence never sees a table-exists error. -/
theorem C6_witness :
    ensure_docstore_schema ⟨some [("a", "b")], none, none, none⟩ =
      .ok (ensureDoc ⟨some [("a", "b")], none, none, none⟩) ∧
    (ensureDoc ⟨some [("a", "b")], none, none, none⟩).get .documents =
      some [("a", "b")] ∧
    write_docstore ⟨[], []⟩ "d" "n" [] ≠ .error (.tableExists .documents) := by
  have h := C6_idempotent_schema
  exact ⟨h.1 _, (h.2.2.1 ⟨some [("a", "b")], none, none, none⟩ .documents
    [("a", "b")] rfl).1, (h.2.2.2.2 ⟨[], []⟩ "d" "n" [] .documents).1⟩

/-- Witness for C7 at the spec's Scenario C snapshot. -/
theorem C7_witness :
    ∃ fs' f, write_indexstore ⟨[], []⟩ "persist" "indexstore.sqlite"
        [("index_1", JValue.obj [("type", JValue.str "vector")])] = .ok fs' ∧
      findFile fs'.files ("persist", "indexstore.sqlite") = some f ∧
      f.index_metadata = some (encodeDictRows
        [("index_1", JValue.obj [("type", JValue.str "vector")])]) ∧
      read_indexstore fs' "persist" "indexstore.sqlite" =
        .ok [("index_1", JValue.obj [("type", JValue.str "vector")])] :=
  C7_indexstore_round_trip ⟨[], []⟩ "persist" "indexstore.sqlite" _ (by decide)

/-- Witness for C8 at store files holding one undecodable payload, one per
table of each store. -/
theorem C8_witness :
    read_docstore ⟨["d"], [(("d", "f"),
        ⟨some [("r", "x")], none, none, some [("r", "x")]⟩)]⟩ "d" "f" =
      .error (.serialization "bad tag") ∧
    read_docstore ⟨["d"], [(("d", "f"),
        ⟨some [], some [("r", "x")], none, none⟩)]⟩ "d" "f" =
      .error (.serialization "bad tag") ∧
    read_docstore ⟨["d"], [(("d", "f"),
        ⟨some [], some [], some [("r", "x")], none⟩)]⟩ "d" "f" =
      .error (.serialization "bad tag") ∧
    read_indexstore ⟨["d"], [(("d", "f"),
        ⟨some [("r", "x")], none, none, some [("r", "x")]⟩)]⟩ "d" "f" =
      .error (.serialization "bad tag") := by
  have h := C8_serialization_propagated
  have hbad : loads (String.mk ['x']) = .error "bad tag" := by
    simp [loads, decodeV]
  refine ⟨?_, ?_, ?_, ?_⟩
  · exact h.1 _ "d" "f" _ [] [] "r" "x" "bad tag" rfl rfl
      (fun q hq => absurd hq (List.not_mem_nil q)) hbad
  · exact h.2.1 _ "d" "f" _ [] [] "r" "x" "bad tag" rfl
      (fun q hq => absurd hq (List.not_mem_nil q)) rfl
      (fun q hq => absurd hq (List.not_mem_nil q)) hbad
  · exact h.2.2.1 _ "d" "f" _ [] [] "r" "x" "bad tag" rfl
      (fun q hq => absurd hq (List.not_mem_nil q))
      (fun q hq => absurd hq (List.not_mem_nil q)) rfl
      (fun q hq => absurd hq (List.not_mem_nil q)) hbad
  · exact h.2.2.2 _ "d" "f" _ [] [] "r" "x" "bad tag" rfl rfl
      (fun q hq => absurd hq (List.not_mem_nil q)) hbad

/-- Witness for C9: hydrate and persist against a concrete directory with
empty stores, with no override name. -/
theorem C9_witness :
    (⟨[("documents", JValue.obj []), ("ref_doc_info", JValue.obj [])],
      some ("p", DOCSTORE_DB)⟩ : SqliteDocumentStore).db_path =
        some ("p", (none : Option String).getD DOCSTORE_DB) ∧
    (⟨[], some ("p", INDEXSTORE_DB)⟩ : SqliteIndexStore).db_path =
        some ("p", (none : Option String).getD INDEXSTORE_DB) ∧
    ∃ f, findFile (⟨["p"],
        [(("p", DOCSTORE_DB), ⟨some [], some [], some [], some []⟩),
         (("p", INDEXSTORE_DB), ⟨some [], some [], some [], some []⟩)]⟩ : FS).files
      ("p", (none : Option String).getD DOCSTORE_DB) = some f := by
  have h := C9_adapters_resolve_and_record
    ⟨["p"], [(("p", DOCSTORE_DB), ⟨some [], some [], some [], some []⟩),
             (("p", INDEXSTORE_DB), ⟨some [], some [], some [], some []⟩)]⟩ "p" none
  refine ⟨?_, ?_, ?_⟩
  · exact (h.1 ⟨[("documents", JValue.obj []), ("ref_doc_info", JValue.obj [])],
      some ("p", DOCSTORE_DB)⟩ rfl).1
  · exact (h.2.2.1 ⟨[], some ("p", INDEXSTORE_DB)⟩ rfl).1
  · exact ((h.2.1 ⟨[], none⟩ _ _ rfl).2.2)

/-- Witness for C10 at the spec's Scenario B extra-field snapshot with both
node keys missing. -/
theorem C10_witness :
    ∃ fs' f, write_docstore ⟨[], []⟩ "d" "f" [("class_name", JValue.str "X")] = .ok fs' ∧
      findFile fs'.files ("d", "f") = some f ∧
      (dictGet [("class_name", JValue.str "X")] "documents" = none →
        f.documents = some []) ∧
      (dictGet [("class_name", JValue.str "X")] "ref_doc_info" = none →
        f.ref_doc_info = some []) ∧
      f.metadata = some (encodeDictRows (extraOf [("class_name", JValue.str "X")])) :=
  C10_missing_keys_ok ⟨[], []⟩ "d" "f" [("class_name", JValue.str "X")]
    (by decide) (by decide) (by decide)

end PG
